import Mathlib

/-!
# tokenize.c : a table-driven scanner

A shallow embedding of `src/tokenize.c` and the properties proved about it.

Conventions of the embedding.

* A C `int` is an `Int`; a `char` is an `Int` in `[-128, 127]` (the platform
  of the program has a signed 8-bit `char`, the one on which `c == EOF` can
  hold for `char c`).  A byte of a file or of standard input is a `Nat`,
  read modulo 256.
* Standard input is the list of the bytes not yet read; `getchar` on the
  empty list returns `EOF` and leaves it empty.
* The transition matrix `Transition matrix[states][12]` is a function from
  row and column to `Transition`, together with the row count `states`.
  An access outside `[0, states) x [0, 12)` and a write outside
  `char buffer[100]` have no defined behaviour in C: the embedding stops
  there with a `Fault` (scanner) or `none` (matrixBuilder).
* A number that `atoi` or `sscanf` cannot represent in an `int`, and
  `atoi(NULL)`, have no defined behaviour either: `matrixBuilder` is `none`.
* The `while` loop of `scanner` need not terminate, so it is run for a given
  number of iterations (`scanLoop`).
* Of the output only the state numbers printed by `scanner` are kept.  Of
  `main` the reading of the header and the set-up of the matrix (lines
  237-242) are embedded (`readHeader`, `mainSetup`); its argument handling,
  its driver loop and `printTransitions` are outside the embedding.
-/

namespace Tokenize

/-! ## Characters and standard input -/

/-- The macro `EOF` of `stdio.h`. -/
def EOF : Int := -1

/-- Conversion of an `int` to `char` (signed, 8 bits), as in `c = getchar()`. -/
def toChar (v : Int) : Int := (v + 128) % 256 - 128

/-- The C function `getchar` on standard input `stdin`: the next byte as an
`int` in `[0, 255]`, or `EOF` when the stream is exhausted. -/
def getchar (stdin : List Nat) : Int × List Nat :=
  match stdin with
  | [] => (EOF, [])
  | b :: rest => (((b % 256 : Nat) : Int), rest)

/-! ## classification -/

/-- The function `classification` of tokenize.c (lines 71-99), on the value of
its `char` argument. -/
def classification (input : Int) : Int :=
  let c : Int := input
  if c = 32 ∨ c = 9 then 0
  else if c = 10 then 1
  else if (c ≥ 65 ∧ c ≤ 90) ∨ (c ≥ 97 ∧ c ≤ 122) ∨ c = 95 then 2
  else if c = 48 then 3
  else if c ≥ 49 ∧ c ≤ 55 then 4
  else if c = 56 ∨ c = 57 then 5
  else if c = 47 then 6
  else if c = 42 then 7
  else if c = 43 ∨ c = 45 ∨ c = 37 then 8
  else if c > 0 ∧ c ≤ 127 then 9
  else if input = EOF then 10
  else if c < 0 ∨ c > 127 then 11
  else 12

/-! ## The transition matrix -/

/-- The struct `Transition` (lines 28-31); the fields `class` and `end` are
named `class_` and `end_`. -/
structure Transition where
  class_ : Int
  end_ : Int
  action : Int
  deriving DecidableEq, Repr

/-- The contents of a `Transition matrix[][12]`, by row and column. -/
abbrev Matrix := Int → Int → Transition

/-- Whether `matrix[row][col]` lies inside `Transition matrix[states][12]`. -/
def inBounds (states row col : Int) : Prop :=
  0 ≤ row ∧ row < states ∧ 0 ≤ col ∧ col < 12

instance (states row col : Int) : Decidable (inBounds states row col) := by
  unfold inBounds; infer_instance

/-- The assignment of a whole cell `matrix[row][col] = t`. -/
def Matrix.set (matrix : Matrix) (row col : Int) (t : Transition) : Matrix :=
  fun i x => if i = row ∧ x = col then t else matrix i x

/-! ## scanner -/

/-- The places where an execution leaves defined behaviour. -/
inductive Fault where
  /-- A read `matrix[current][class]` outside the matrix. -/
  | matrixIndex (current class_ : Int)
  /-- A write `buffer[count]` with `count >= 100`. -/
  | bufferIndex (count : Nat)
  deriving DecidableEq, Repr

/-- The variables of `scanner` that live across iterations of its loop.
`buffer` holds `buffer[0 .. count)`, so `count` is its length; `printed` is
the list of the state numbers written by `printf("%d ", current)`. -/
structure ScanState where
  c : Int
  current : Int
  recognize : Int
  buffer : List Int
  printed : List Int
  deriving DecidableEq, Repr

/-- The variable `count` of `scanner`. -/
def ScanState.count (st : ScanState) : Nat := st.buffer.length

/-- Where the loop of `scanner` stands: still running, left (by its
condition or by `break`), or stopped by a fault. -/
inductive Config where
  | running (st : ScanState) (stdin : List Nat)
  | done (st : ScanState) (stdin : List Nat)
  | fault (f : Fault)
  deriving DecidableEq, Repr

/-- Dead-state recovery (lines 180-185): read characters until one
classifies as 10, 0 or 1; returns the last `c` and the rest of the input. -/
def recover : List Nat → Int × List Nat
  | [] => (toChar EOF, [])
  | b :: rest =>
    let c := toChar (getchar (b :: rest)).1
    let class_ := classification c
    if class_ ≠ 10 ∧ class_ ≠ 0 ∧ class_ ≠ 1 then recover rest else (c, rest)

/-- One execution of the body of the `while` loop (lines 169-196). -/
def scanBody (matrix : Matrix) (states accept : Int) (st : ScanState)
    (stdin : List Nat) : Config :=
  let r := getchar stdin
  let c := toChar r.1
  let class_ := classification c
  if ¬ inBounds states st.current class_ then .fault (.matrixIndex st.current class_)
  else
    let action := (matrix st.current class_).action
    let next_state := (matrix st.current class_).end_
    let current := next_state
    let printed := st.printed ++ [current]
    if c = EOF ∧ st.count = 0 then
      .done { st with c := c, current := current, printed := printed } r.2
    else if current = 99 then
      let rc := recover r.2
      .done { st with c := rc.1, current := current, printed := printed } rc.2
    else if action = 115 then
      if st.count ≥ 100 then .fault (.bufferIndex st.count)
      else .running { st with c := c, current := current, printed := printed,
                              buffer := st.buffer ++ [c] } r.2
    else if current = accept then
      if st.count ≥ 100 then .fault (.bufferIndex st.count)
      else .running { st with c := c, current := current, printed := printed,
                              recognize := 1 } r.2
    else
      .running { st with c := c, current := current, printed := printed } r.2

/-- Continue with `next` from a configuration that is still running. -/
def Config.andThen (cfg : Config) (next : ScanState → List Nat → Config) : Config :=
  match cfg with
  | .running st stdin => next st stdin
  | other => other

/-- The loop `while (current != accept)` (line 168), run for at most `fuel`
executions of its body; `running` is returned when they do not suffice. -/
def scanLoop (matrix : Matrix) (states accept : Int) :
    Nat → ScanState → List Nat → Config
  | 0, st, stdin => if st.current = accept then .done st stdin else .running st stdin
  | fuel + 1, st, stdin =>
    if st.current = accept then .done st stdin
    else (scanBody matrix states accept st stdin).andThen (scanLoop matrix states accept fuel)

/-- What one call of `scanner` reports. -/
inductive Outcome where
  /-- The call prints `recognized '%s'` and returns 0. -/
  | recognized (lexeme : List Int)
  /-- The call prints `rejected` and returns 0. -/
  | rejected
  /-- The call returns 1. -/
  | endOfStream
  deriving DecidableEq, Repr

/-- The value returned by `scanner`. -/
def Outcome.returnValue : Outcome → Int
  | .endOfStream => 1
  | _ => 0

/-- The result of a call of `scanner` that returns: its outcome, the state
numbers it printed, and what is left of standard input. -/
structure ScanResult where
  outcome : Outcome
  printed : List Int
  stdin : List Nat
  deriving DecidableEq, Repr

/-- The characters `printf("%s", ...)` writes for a buffer holding `buffer`
followed by a terminating zero. -/
def cString (buffer : List Int) : List Int := buffer.takeWhile (fun x => x ≠ 0)

/-- The variables of `scanner` before its loop (lines 162-167). -/
def initialState (initial_state : Int) : ScanState :=
  { c := 32, current := initial_state, recognize := 0, buffer := [],
    printed := [initial_state] }

/-- The end of `scanner` (lines 198-205). -/
def report (st : ScanState) : Outcome :=
  if st.recognize = 1 then .recognized (cString st.buffer)
  else if st.c = EOF then .endOfStream
  else .rejected

/-- How a call of `scanner` ends: it returns, or it leaves defined
behaviour. -/
inductive CallResult where
  | returns (r : ScanResult)
  | faults (f : Fault)
  deriving DecidableEq, Repr

/-- The function `scanner` (lines 161-206), its loop run for at most `fuel`
iterations: `none` when the loop has not ended by then. -/
def scanner (fuel : Nat) (matrix : Matrix) (states initial_state accept_state : Int)
    (stdin : List Nat) : Option CallResult :=
  match scanLoop matrix states accept_state fuel (initialState initial_state) stdin with
  | .running _ _ => none
  | .fault f => some (.faults f)
  | .done st rest =>
    some (.returns { outcome := report st, printed := st.printed, stdin := rest })

/-! ## matrixBuilder

The description file is the list of the bytes that `fp` still has to
deliver.  The C library functions are embedded for the arguments the program
passes them: `fgets(buf, 256, fp)`, `strlen`, `strtok(_, " ")`, `atoi` and
`sscanf(_, "%d%c%d%c", ...)`. -/

/-- The C function `isspace`, in the C locale. -/
def isspace (c : Nat) : Bool := c == 32 || (9 ≤ c && c ≤ 13)

/-- The C function `isdigit`. -/
def isdigit (c : Nat) : Bool := 48 ≤ c && c ≤ 57

/-- Whether a value can be represented in a (32-bit) `int`. -/
def isInt (v : Int) : Prop := -2147483648 ≤ v ∧ v ≤ 2147483647

instance (v : Int) : Decidable (isInt v) := by
  unfold isInt; infer_instance

/-- The digits at the head of a string, accumulated in base 10, and the
rest of the string. -/
def scanDigits : Nat → List Nat → Nat × List Nat
  | acc, [] => (acc, [])
  | acc, c :: s => if isdigit c then scanDigits (acc * 10 + (c - 48)) s else (acc, c :: s)

/-- The conversion `%d` (that of `strtol` in base 10): white space is
skipped, then an optional sign and at least one digit are read.  `none`
when there is no number to convert; otherwise the value and the rest. -/
def scanInt (s : List Nat) : Option (Int × List Nat) :=
  let s1 := s.dropWhile isspace
  let signed : Bool := s1.head? == some 45 || s1.head? == some 43
  let s2 := if signed then s1.tail else s1
  match s2 with
  | [] => none
  | d :: _ =>
    if isdigit d then
      let r := scanDigits 0 s2
      some (if s1.head? == some 45 then - (r.1 : Int) else (r.1 : Int), r.2)
    else none

/-- The C function `atoi`: 0 when there is no number; `none` when the value
cannot be represented (no defined behaviour). -/
def atoi (s : List Nat) : Option Int :=
  let v : Int := match scanInt s with
    | some r => r.1
    | none => 0
  if isInt v then some v else none

/-- The string held by a buffer filled with `bytes` and a terminating zero:
what precedes the first zero byte. -/
def strOf (bytes : List Nat) : List Nat := bytes.takeWhile (fun b => b ≠ 0)

/-- The call `fgets(buf, room + 1, fp)` on a stream that is not at its end:
the characters stored (at most `room`, up to and including the first
newline) and the rest of the stream. -/
def fgets : Nat → List Nat → List Nat × List Nat
  | 0, fp => ([], fp)
  | _ + 1, [] => ([], [])
  | room + 1, b :: fp =>
    if b = 10 then ([b], fp)
    else ((b :: (fgets room fp).1), (fgets room fp).2)

/-- The pieces of a string between its spaces, empty pieces included. -/
def splitSpaces : List Nat → List (List Nat)
  | [] => [[]]
  | b :: s =>
    if b = 32 then [] :: splitSpaces s
    else
      match splitSpaces s with
      | [] => [[b]]
      | t :: ts => (b :: t) :: ts

/-- The tokens that `strtok(str, " ")` and the following calls
`strtok(NULL, " ")` return, until `NULL`. -/
def strtokAll (str : List Nat) : List (List Nat) :=
  (splitSpaces str).filter (fun t => t ≠ [])

/-- The local variables of `matrixBuilder` (lines 114-116) and the matrix.
`written` is a ghost variable: the cells assigned so far by lines
131-133, in order. -/
structure BuilderState where
  row : Int
  col : Int
  target : Int
  slash : Int
  action : Int
  matrix : Matrix
  written : List (Int × Int)

/-- The call `sscanf(token, "%d%c%d%c", &col, &slash, &target, &action)`
(line 130): the variables are assigned from left to right until a conversion
fails.  `none` when a number cannot be represented in an `int`. -/
def sscanf (token : List Nat) (st : BuilderState) : Option BuilderState :=
  match scanInt token with
  | none => some st
  | some (col, s1) =>
    if ¬ isInt col then none
    else
      match s1 with
      | [] => some { st with col := col }
      | sl :: s2 =>
        match scanInt s2 with
        | none => some { st with col := col, slash := toChar sl }
        | some (target, s3) =>
          if ¬ isInt target then none
          else
            match s3 with
            | [] => some { st with col := col, slash := toChar sl, target := target }
            | a :: _ =>
              some { st with col := col, slash := toChar sl, target := target,
                             action := toChar a }

/-- The body of the inner loop (lines 130-133) for one token; `none` when
`matrix[row][col]` is outside the matrix. -/
def ruleToken (states : Int) (st : BuilderState) (token : List Nat) :
    Option BuilderState :=
  match sscanf token st with
  | none => none
  | some st1 =>
    if inBounds states st1.row st1.col then
      some { st1 with
        matrix := st1.matrix.set st1.row st1.col
          { class_ := st1.col, end_ := st1.target, action := st1.action },
        written := st1.written ++ [(st1.row, st1.col)] }
    else none

/-- The body of the outer loop (lines 124-135) for the buffer `buf` filled
by `fgets`; `none` when `strtok` returns `NULL` for the row (`atoi(NULL)`)
or a step of the line has no defined behaviour. -/
def readLine (states : Int) (st : BuilderState) (buf : List Nat) :
    Option BuilderState :=
  if (strOf buf).length = 1 then some st
  else
    match strtokAll (strOf buf) with
    | [] => none
    | token :: tokens =>
      match atoi token with
      | none => none
      | some row => tokens.foldlM (ruleToken states) { st with row := row }

/-- The loop `while ((ptr = fgets(buf, 256, fp)) != NULL)` (line 123).  Each
`fgets` takes at least one byte, so `fuel = fp.length` iterations reach the
end of the file. -/
def readLines (states : Int) : Nat → List Nat → BuilderState → Option BuilderState
  | 0, _, st => some st
  | _, [], st => some st
  | fuel + 1, b :: fp, st =>
    match readLine states st (fgets 255 (b :: fp)).1 with
    | none => none
    | some st1 => readLines states fuel (fgets 255 (b :: fp)).2 st1

/-- The loop `for (x = 0; x < n; x++)` with the body
`matrix[i][x] = f(x, matrix[i][x])`. -/
def forCols (f : Int → Transition → Transition) (i : Int) (n : Nat) (matrix : Matrix) :
    Matrix :=
  (List.range n).foldl
    (fun (m : Matrix) (x : Nat) => m.set i (x : Int) (f (x : Int) (m i (x : Int)))) matrix

/-- The loop `for (i = 0; i < n; i++)` around `for (x = 0; x < 12; x++)`. -/
def forRows (f : Int → Transition → Transition) (n : Nat) (matrix : Matrix) : Matrix :=
  (List.range n).foldl (fun (m : Matrix) (i : Nat) => forCols f (i : Int) 12 m) matrix

/-- The loop nest `for (i = 0; i < states; i++) for (x = 0; x < 12; x++)`
with the body `matrix[i][x] = f(x, matrix[i][x])`. -/
def forCells (states : Int) (f : Int → Transition → Transition) (matrix : Matrix) :
    Matrix :=
  forRows f states.toNat matrix

/-- The first loop nest (lines 118-121): `matrix[i][x].end = -1`. -/
def markUnset (states : Int) (matrix : Matrix) : Matrix :=
  forCells states (fun _ t => { t with end_ := -1 }) matrix

/-- The last loop nest (lines 137-145): a cell whose `end` is still -1 gets
`class = x`, `end = 99`, `action = 'd'`. -/
def fillDefaults (states : Int) (matrix : Matrix) : Matrix :=
  forCells states
    (fun x t => if t.end_ = -1 then { class_ := x, end_ := 99, action := 100 } else t)
    matrix

/-- The function `matrixBuilder` (lines 113-147) with its local variables:
`matrix` is the array as the caller passes it (uninitialised in `main`). -/
def matrixBuilderRun (states : Int) (fp : List Nat) (matrix : Matrix) :
    Option BuilderState :=
  let st0 : BuilderState :=
    { row := 0, col := 0, target := 0, slash := 0, action := 0,
      matrix := markUnset states matrix, written := [] }
  match readLines states fp.length fp st0 with
  | none => none
  | some st => some { st with matrix := fillDefaults states st.matrix }

/-- The function `matrixBuilder`: the matrix it leaves, or `none` when the
call has no defined behaviour. -/
def matrixBuilder (states : Int) (fp : List Nat) (matrix : Matrix) : Option Matrix :=
  (matrixBuilderRun states fp matrix).map (fun st => st.matrix)

/-- The bytes of a text. -/
def bytes (text : String) : List Nat := text.toList.map Char.toNat

/-! ## Definitions used to state the properties -/

/-- The description of the example table, as `matrixBuilder` receives it
after `main` has read the three header lines: the end of the last header
line, then the rules of rows 0 and 1. -/
def exampleDescription : List Nat := bytes "\n0 2/1s\n1 2/1s 0/2d 10/2d\n"

/-- The example table: (0, 2) -> 1 Shift, (1, 2) -> 1 Shift, (1, 0) -> 2 Move,
(1, 10) -> 2 Move, and the default entry in every other cell. -/
def exampleTable : Matrix := fun row col =>
  if row = 0 ∧ col = 2 then { class_ := 2, end_ := 1, action := 115 }
  else if row = 1 ∧ col = 2 then { class_ := 2, end_ := 1, action := 115 }
  else if row = 1 ∧ col = 0 then { class_ := 0, end_ := 2, action := 100 }
  else if row = 1 ∧ col = 10 then { class_ := 10, end_ := 2, action := 100 }
  else { class_ := col, end_ := 99, action := 100 }

/-- The characters of a text, as `char` values. -/
def chars (text : String) : List Int := (bytes text).map (fun b => toChar b)

/-- The characters read by `getchar` one after the other from `stdin`, taken
together with the states `trace` printed by a call (the state before each
read, then the state after the last one): those whose transition
`matrix[state][classification(c)]` has the action `'s'`. -/
def shiftedChars (matrix : Matrix) : List Int → List Nat → List Int
  | [], _ => []
  | [_], _ => []
  | q :: q1 :: trace, stdin =>
    let c := toChar (getchar stdin).1
    (if (matrix q (classification c)).action = 115 then [c] else [])
      ++ shiftedChars matrix (q1 :: trace) (getchar stdin).2

/-- Whether the states `trace` follow the transitions of `matrix` on the
characters read from `stdin`. -/
def followsTable (matrix : Matrix) : List Int → List Nat → Prop
  | [], _ => True
  | [_], _ => True
  | q :: q1 :: trace, stdin =>
    q1 = (matrix q (classification (toChar (getchar stdin).1))).end_
      ∧ followsTable matrix (q1 :: trace) (getchar stdin).2

/-- Whether a trace follows the table can be computed. -/
def followsTable.decide (matrix : Matrix) :
    (trace : List Int) → (stdin : List Nat) → Decidable (followsTable matrix trace stdin)
  | [], _ => isTrue trivial
  | [_], _ => isTrue trivial
  | q :: q1 :: trace, stdin =>
    match Int.decEq q1 (matrix q (classification (toChar (getchar stdin).1))).end_,
      followsTable.decide matrix (q1 :: trace) (getchar stdin).2 with
    | isTrue h1, isTrue h2 => isTrue ⟨h1, h2⟩
    | isFalse h1, _ => isFalse (fun h => h1 h.1)
    | _, isFalse h2 => isFalse (fun h => h2 h.2)

instance (matrix : Matrix) (trace : List Int) (stdin : List Nat) :
    Decidable (followsTable matrix trace stdin) :=
  followsTable.decide matrix trace stdin

/-! ### Well-formed descriptions -/

/-- The decimal digits of `n`, most significant first (`fuel` bounds their
number). -/
def decimalDigits : Nat → Nat → List Nat
  | 0, _ => []
  | fuel + 1, n =>
    if n < 10 then [n + 48] else decimalDigits fuel (n / 10) ++ [n % 10 + 48]

/-- The decimal numeral of `n`, as bytes. -/
def decimal (n : Nat) : List Nat := decimalDigits (n + 1) n

/-- A rule of a description: the token `class/nextState<actionChar>`. -/
structure Rule where
  class_ : Nat
  nextState : Nat
  actionChar : Nat
  deriving DecidableEq, Repr

/-- A line of a description: a row index and the rules that follow it. -/
structure RuleLine where
  row : Nat
  rules : List Rule
  deriving DecidableEq, Repr

/-- The matrix entry a rule describes. -/
def Rule.entry (r : Rule) : Transition :=
  { class_ := r.class_, end_ := r.nextState, action := toChar r.actionChar }

/-- The text of a rule token. -/
def Rule.text (r : Rule) : List Nat :=
  decimal r.class_ ++ 47 :: (decimal r.nextState ++ [r.actionChar])

/-- The text of the rules of a line, each after one space, and the newline. -/
def rulesText : List Rule → List Nat
  | [] => [10]
  | r :: rs => 32 :: (r.text ++ rulesText rs)

/-- The text of a line. -/
def RuleLine.text (l : RuleLine) : List Nat := decimal l.row ++ rulesText l.rules

/-- The text of a description: `none` is a blank line. -/
def descriptionText : List (Option RuleLine) → List Nat
  | [] => []
  | none :: ls => 10 :: descriptionText ls
  | some l :: ls => l.text ++ descriptionText ls

/-- The rules of a description with their rows, in the order of the text. -/
def rulesOf : List (Option RuleLine) → List (Nat × Rule)
  | [] => []
  | none :: ls => rulesOf ls
  | some l :: ls => l.rules.map (fun r => (l.row, r)) ++ rulesOf ls

/-- The last rule of the list for the cell `(row, class_)`. -/
def lastRule (rules : List (Nat × Rule)) (row class_ : Nat) : Option Rule :=
  ((rules.filter (fun p => p.1 = row ∧ p.2.class_ = class_)).getLast?).map (fun p => p.2)

/-- An action character that can end a token: a byte that is not a digit, a
space, a newline or the zero byte. -/
def actionCharOk (a : Nat) : Prop :=
  a < 256 ∧ a ≠ 0 ∧ a ≠ 10 ∧ a ≠ 32 ∧ isdigit a = false

instance (a : Nat) : Decidable (actionCharOk a) := by
  unfold actionCharOk; infer_instance

/-- A rule whose class is in `[0, 12)` and whose destination is a state index
or the dead state 99. -/
def Rule.wellFormed (states : Int) (r : Rule) : Prop :=
  (r.class_ : Int) < 12 ∧ ((r.nextState : Int) < states ∨ r.nextState = 99) ∧
    actionCharOk r.actionChar

instance (states : Int) (r : Rule) : Decidable (r.wellFormed states) := by
  unfold Rule.wellFormed; infer_instance

/-- A line whose row is in `[0, states)` and whose rules are well formed. -/
def RuleLine.wellFormed (states : Int) (l : RuleLine) : Prop :=
  (l.row : Int) < states ∧ ∀ r ∈ l.rules, r.wellFormed states

instance (states : Int) (l : RuleLine) : Decidable (l.wellFormed states) := by
  unfold RuleLine.wellFormed; infer_instance

/-- A line of 260 characters: row 0, 50 rules that fill the first 254
characters, and the rule `3/2d` after them. -/
def longLine : RuleLine :=
  { row := 0,
    rules := List.replicate 3 { class_ := 10, nextState := 1, actionChar := 115 }
      ++ List.replicate 47 { class_ := 2, nextState := 1, actionChar := 115 }
      ++ [{ class_ := 3, nextState := 2, actionChar := 100 }] }

/-- An array whose cells all hold zeros. -/
def zeroMatrix : Matrix := fun _ _ => { class_ := 0, end_ := 0, action := 0 }

/-- Whether a byte of standard input classifies as white space (0), newline
(1) or end of stream (10), the classes that end dead-state recovery. -/
def isDelimiter (b : Nat) : Bool :=
  classification (toChar ((b % 256 : Nat) : Int)) == 10
    || classification (toChar ((b % 256 : Nat) : Int)) == 0
    || classification (toChar ((b % 256 : Nat) : Int)) == 1

/-- Standard input after its first delimiter (empty when it has none). -/
def skipToDelimiter (stdin : List Nat) : List Nat :=
  (stdin.dropWhile (fun b => ! isDelimiter b)).drop 1

/-- A description whose rules for row 0 are spread over two lines, the
second of which sets the cell (0, 2) again. -/
def splitRowLines : List (Option RuleLine) :=
  [ some { row := 0, rules := [{ class_ := 2, nextState := 1, actionChar := 115 }] },
    none,
    some { row := 1, rules := [{ class_ := 2, nextState := 1, actionChar := 115 },
                               { class_ := 0, nextState := 2, actionChar := 100 }] },
    some { row := 0, rules := [{ class_ := 3, nextState := 0, actionChar := 100 },
                               { class_ := 2, nextState := 2, actionChar := 100 }] } ]

/-- A description whose last line holds the row index 1, a space and the
newline: no rule for row 1. -/
def trailingSpaceDescription : List Nat := bytes "\n0 2/1s\n1 \n"

/-- A table with one state besides the accept state 1: white space is
skipped by a Move that stays in state 0, every other cell is the default. -/
def skipSpacesTable : Matrix := fun row col =>
  if row = 0 ∧ col = 0 then { class_ := 0, end_ := 0, action := 100 }
  else { class_ := col, end_ := 99, action := 100 }

/-- Between two states of `matrixBuilder`: the cells logged in `written`
in between are the only cells of the matrix that can differ. -/
def Frame (st st1 : BuilderState) : Prop :=
  ∃ new, st1.written = st.written ++ new ∧
    ∀ i x, (i, x) ∉ new → st1.matrix i x = st.matrix i x

/-! ## main: the header of the description file -/

/-- One of the calls `fscanf(fp, "%s %d", string, &n)` of `main` (lines
237-239): white space is skipped, a word of at most 9 characters is stored in
`char string[10]`, white space is skipped and a number is converted.  The
value of `n` and the rest of the file; `none` when the call has no defined
behaviour or leaves `n` uninitialised (no word, a word of 10 characters or
more, no number, a number that an `int` cannot hold). -/
def fscanfLabelInt (fp : List Nat) : Option (Int × List Nat) :=
  let s1 := fp.dropWhile isspace
  let word := s1.takeWhile (fun b => ! isspace b)
  let s2 := s1.dropWhile (fun b => ! isspace b)
  if word = [] ∨ 10 ≤ word.length then none
  else
    match scanInt s2 with
    | none => none
    | some r => if isInt r.1 then some r else none

/-- What `main` has read when it declares the matrix (line 241). -/
structure Header where
  states : Int
  start : Int
  accept : Int
  rest : List Nat
  deriving DecidableEq, Repr

/-- The three calls of `fscanf` in `main` (lines 237-239). -/
def readHeader (fp : List Nat) : Option Header :=
  match fscanfLabelInt fp with
  | none => none
  | some r1 =>
    match fscanfLabelInt r1.2 with
    | none => none
    | some r2 =>
      match fscanfLabelInt r2.2 with
      | none => none
      | some r3 => some { states := r1.1, start := r2.1, accept := r3.1, rest := r3.2 }

/-- The start of `main` (lines 237-242): the header is read, the array
`Transition transitionMatrix[states][12]` is declared (`garbage` is what it
holds; a size that is not positive has no defined behaviour) and
`matrixBuilder` fills it from the rest of the file.  The header and the
matrix that the calls of `scanner` (line 246) receive. -/
def mainSetup (fp : List Nat) (garbage : Matrix) : Option (Header × Matrix) :=
  match readHeader fp with
  | none => none
  | some h =>
    if h.states ≤ 0 then none
    else (matrixBuilder h.states h.rest garbage).map (fun table => (h, table))

/-! ## Further definitions used to state the properties -/

/-- The cell `matrix[row][col]` that lines 131-133 assign for a token, inside
the matrix or not; `none` when `sscanf` has no defined behaviour. -/
def assignedCell (st : BuilderState) (token : List Nat) : Option (Int × Int) :=
  (sscanf token st).map (fun st1 => (st1.row, st1.col))

/-- The local variables of `matrixBuilder` before its first loop, with the
array of the caller. -/
def builderStart (matrix : Matrix) : BuilderState :=
  { row := 0, col := 0, target := 0, slash := 0, action := 0,
    matrix := matrix, written := [] }

/-- The variables of `matrixBuilder`, with 3 states and an array of zeros,
after it has read the line `"0 2/1s\n"`. -/
def afterFirstRule : BuilderState :=
  { row := 0, col := 2, target := 1, slash := 47, action := 115,
    matrix := (markUnset 3 zeroMatrix).set 0 2 { class_ := 2, end_ := 1, action := 115 },
    written := [(0, 2)] }

/-- The byte on which dead-state recovery stops: the first delimiter of
standard input, `none` when the stream is exhausted before one is read. -/
def recoveryEnd (stdin : List Nat) : Option Nat :=
  (stdin.dropWhile (fun b => ! isDelimiter b)).head?

/-- A table, with accept state 2, that stays in state 1 on the end of the
stream: (0, 2) -> 1 Shift, (1, 2) -> 1 Shift, (1, 10) -> 1 Move, and the
default entry in every other cell. -/
def eofLoopTable : Matrix := fun row col =>
  if row = 0 ∧ col = 2 then { class_ := 2, end_ := 1, action := 115 }
  else if row = 1 ∧ col = 2 then { class_ := 2, end_ := 1, action := 115 }
  else if row = 1 ∧ col = 10 then { class_ := 10, end_ := 1, action := 100 }
  else { class_ := col, end_ := 99, action := 100 }

/-- A table, with accept state 1, whose accept state is entered by a Shift:
(0, 2) -> 1 Shift, and the default entry in every other cell. -/
def shiftAcceptTable : Matrix := fun row col =>
  if row = 0 ∧ col = 2 then { class_ := 2, end_ := 1, action := 115 }
  else { class_ := col, end_ := 99, action := 100 }

/-- Every entry inside the matrix has a destination that is a state index
or the dead state 99. -/
def destinationsValid (matrix : Matrix) (states : Int) : Prop :=
  ∀ i x, inBounds states i x →
    (0 ≤ (matrix i x).end_ ∧ (matrix i x).end_ < states) ∨ (matrix i x).end_ = 99

/-- A description file whose start state is 99, with 3 states. -/
def startIsDeadFile : List Nat := bytes "states 3\nstart 99\naccept 2\n"

/-- A description file with 100 states whose accept state is 99. -/
def hundredStatesFile : List Nat := bytes "states 100\nstart 0\naccept 99\n0 2/99d\n"

/-- The description file of the example table, header included. -/
def exampleFile : List Nat :=
  bytes "states 3\nstart 0\naccept 2\n0 2/1s\n1 2/1s 0/2d 10/2d\n"

/-! ## Properties of classification -/

theorem ite_cases {p : Prop} [Decidable p] {a b k : Int} (h : (if p then a else b) = k) :
    (p ∧ a = k) ∨ (¬ p ∧ b = k) := by
  by_cases hp : p
  · rw [if_pos hp] at h; exact Or.inl ⟨hp, h⟩
  · rw [if_neg hp] at h; exact Or.inr ⟨hp, h⟩

theorem classification_cases (c k : Int) (hk : classification c = k) :
    (k = 0 ∧ (c = 32 ∨ c = 9)) ∨
    (k = 1 ∧ (c = 10)) ∨
    (k = 2 ∧ ((65 ≤ c ∧ c ≤ 90) ∨ (97 ≤ c ∧ c ≤ 122) ∨ c = 95)) ∨
    (k = 3 ∧ (c = 48)) ∨
    (k = 4 ∧ (49 ≤ c ∧ c ≤ 55)) ∨
    (k = 5 ∧ (c = 56 ∨ c = 57)) ∨
    (k = 6 ∧ (c = 47)) ∨
    (k = 7 ∧ (c = 42)) ∨
    (k = 8 ∧ (c = 43 ∨ c = 45 ∨ c = 37)) ∨
    (k = 9 ∧ (0 < c ∧ c ≤ 127)) ∨
    (k = 10 ∧ (c = -1)) ∨
    (k = 11 ∧ (c < 0 ∨ 127 < c)) ∨
    (k = 12 ∧ (c = 0)) := by
  unfold classification EOF at hk
  dsimp only at hk
  rcases ite_cases hk with ⟨h0, hk0⟩ | ⟨h0, hk⟩
  · exact Or.inl ⟨hk0.symm, h0⟩
  rcases ite_cases hk with ⟨h1, hk1⟩ | ⟨h1, hk⟩
  · exact Or.inr (Or.inl ⟨hk1.symm, h1⟩)
  rcases ite_cases hk with ⟨h2, hk2⟩ | ⟨h2, hk⟩
  · exact Or.inr (Or.inr (Or.inl ⟨hk2.symm, h2⟩))
  rcases ite_cases hk with ⟨h3, hk3⟩ | ⟨h3, hk⟩
  · exact Or.inr (Or.inr (Or.inr (Or.inl ⟨hk3.symm, h3⟩)))
  rcases ite_cases hk with ⟨h4, hk4⟩ | ⟨h4, hk⟩
  · exact Or.inr (Or.inr (Or.inr (Or.inr (Or.inl ⟨hk4.symm, h4⟩))))
  rcases ite_cases hk with ⟨h5, hk5⟩ | ⟨h5, hk⟩
  · exact Or.inr (Or.inr (Or.inr (Or.inr (Or.inr (Or.inl ⟨hk5.symm, h5⟩)))))
  rcases ite_cases hk with ⟨h6, hk6⟩ | ⟨h6, hk⟩
  · exact Or.inr (Or.inr (Or.inr (Or.inr (Or.inr (Or.inr (Or.inl ⟨hk6.symm, h6⟩))))))
  rcases ite_cases hk with ⟨h7, hk7⟩ | ⟨h7, hk⟩
  · exact Or.inr (Or.inr (Or.inr (Or.inr (Or.inr (Or.inr (Or.inr (Or.inl ⟨hk7.symm, h7⟩)))))))
  rcases ite_cases hk with ⟨h8, hk8⟩ | ⟨h8, hk⟩
  · exact Or.inr (Or.inr (Or.inr (Or.inr (Or.inr (Or.inr (Or.inr (Or.inr (Or.inl ⟨hk8.symm, h8⟩))))))))
  rcases ite_cases hk with ⟨h9, hk9⟩ | ⟨h9, hk⟩
  · exact Or.inr (Or.inr (Or.inr (Or.inr (Or.inr (Or.inr (Or.inr (Or.inr (Or.inr (Or.inl ⟨hk9.symm, h9⟩)))))))))
  rcases ite_cases hk with ⟨h10, hk10⟩ | ⟨h10, hk⟩
  · exact Or.inr (Or.inr (Or.inr (Or.inr (Or.inr (Or.inr (Or.inr (Or.inr (Or.inr (Or.inr (Or.inl ⟨hk10.symm, h10⟩))))))))))
  rcases ite_cases hk with ⟨h11, hk11⟩ | ⟨h11, hk⟩
  · exact Or.inr (Or.inr (Or.inr (Or.inr (Or.inr (Or.inr (Or.inr (Or.inr (Or.inr (Or.inr (Or.inr (Or.inl ⟨hk11.symm, h11⟩)))))))))))
  exact Or.inr (Or.inr (Or.inr (Or.inr (Or.inr (Or.inr (Or.inr (Or.inr (Or.inr (Or.inr (Or.inr (Or.inr ⟨hk.symm, by clear h0 h1 h2 h3 h4 h5 h6 h7 h8; omega⟩)))))))))))

/-- The rows of the priority table on the value of the `char` argument of
`classification`: 32 and 9 give 0; 10 gives 1; letters and `_` give 2; `'0'`
gives 3; `'1'`-`'7'` give 4; `'8'` and `'9'` give 5; `'/'` gives 6; `'*'`
gives 7; `'+'`, `'-'` and `'%'` give 8; every value of (0, 127] that none of
these rows takes gives 9; the value -1 of `EOF` gives 10; every other value
outside [0, 127] gives 11.  The value -1 is also the one that the byte 255
has in a `char`. -/
theorem classification_table (c : Int) :
    ((c = 32 ∨ c = 9) → classification c = 0) ∧
    ((c = 10) → classification c = 1) ∧
    (((65 ≤ c ∧ c ≤ 90) ∨ (97 ≤ c ∧ c ≤ 122) ∨ c = 95) → classification c = 2) ∧
    ((c = 48) → classification c = 3) ∧
    ((49 ≤ c ∧ c ≤ 55) → classification c = 4) ∧
    ((c = 56 ∨ c = 57) → classification c = 5) ∧
    ((c = 47) → classification c = 6) ∧
    ((c = 42) → classification c = 7) ∧
    ((c = 43 ∨ c = 45 ∨ c = 37) → classification c = 8) ∧
    ((0 < c ∧ c ≤ 127 ∧ ¬ (c = 32 ∨ c = 9) ∧ ¬ (c = 10) ∧ ¬ ((65 ≤ c ∧ c ≤ 90) ∨ (97 ≤ c ∧ c ≤ 122) ∨ c = 95) ∧ ¬ (c = 48) ∧ ¬ (49 ≤ c ∧ c ≤ 55) ∧ ¬ (c = 56 ∨ c = 57) ∧ ¬ (c = 47) ∧ ¬ (c = 42) ∧ ¬ (c = 43 ∨ c = 45 ∨ c = 37)) →
      classification c = 9) ∧
    (c = EOF → classification c = 10) ∧
    (((c < 0 ∨ 127 < c) ∧ c ≠ EOF) → classification c = 11) := by
  refine ⟨?_, ?_, ?_, ?_, ?_, ?_, ?_, ?_, ?_, ?_, ?_, ?_⟩ <;> intro h <;>
    unfold classification EOF at * <;> dsimp only
  · rw [if_pos h]
  · have earlier : ¬ (c = 32 ∨ c = 9) := by omega
    rw [if_neg earlier, if_pos h]
  · have earlier : ¬ (c = 32 ∨ c = 9) ∧ ¬ (c = 10) := by omega
    rw [if_neg earlier.1, if_neg earlier.2, if_pos h]
  · have earlier : ¬ (c = 32 ∨ c = 9) ∧ ¬ (c = 10) ∧ ¬ ((65 ≤ c ∧ c ≤ 90) ∨ (97 ≤ c ∧ c ≤ 122) ∨ c = 95) := by omega
    rw [if_neg earlier.1, if_neg earlier.2.1, if_neg earlier.2.2, if_pos h]
  · have earlier : ¬ (c = 32 ∨ c = 9) ∧ ¬ (c = 10) ∧ ¬ ((65 ≤ c ∧ c ≤ 90) ∨ (97 ≤ c ∧ c ≤ 122) ∨ c = 95) ∧ ¬ (c = 48) := by omega
    rw [if_neg earlier.1, if_neg earlier.2.1, if_neg earlier.2.2.1, if_neg earlier.2.2.2, if_pos h]
  · have earlier : ¬ (c = 32 ∨ c = 9) ∧ ¬ (c = 10) ∧ ¬ ((65 ≤ c ∧ c ≤ 90) ∨ (97 ≤ c ∧ c ≤ 122) ∨ c = 95) ∧ ¬ (c = 48) ∧ ¬ (49 ≤ c ∧ c ≤ 55) := by omega
    rw [if_neg earlier.1, if_neg earlier.2.1, if_neg earlier.2.2.1, if_neg earlier.2.2.2.1, if_neg earlier.2.2.2.2, if_pos h]
  · have earlier : ¬ (c = 32 ∨ c = 9) ∧ ¬ (c = 10) ∧ ¬ ((65 ≤ c ∧ c ≤ 90) ∨ (97 ≤ c ∧ c ≤ 122) ∨ c = 95) ∧ ¬ (c = 48) ∧ ¬ (49 ≤ c ∧ c ≤ 55) ∧ ¬ (c = 56 ∨ c = 57) := by omega
    rw [if_neg earlier.1, if_neg earlier.2.1, if_neg earlier.2.2.1, if_neg earlier.2.2.2.1, if_neg earlier.2.2.2.2.1, if_neg earlier.2.2.2.2.2, if_pos h]
  · have earlier : ¬ (c = 32 ∨ c = 9) ∧ ¬ (c = 10) ∧ ¬ ((65 ≤ c ∧ c ≤ 90) ∨ (97 ≤ c ∧ c ≤ 122) ∨ c = 95) ∧ ¬ (c = 48) ∧ ¬ (49 ≤ c ∧ c ≤ 55) ∧ ¬ (c = 56 ∨ c = 57) ∧ ¬ (c = 47) := by omega
    rw [if_neg earlier.1, if_neg earlier.2.1, if_neg earlier.2.2.1, if_neg earlier.2.2.2.1, if_neg earlier.2.2.2.2.1, if_neg earlier.2.2.2.2.2.1, if_neg earlier.2.2.2.2.2.2, if_pos h]
  · have earlier : ¬ (c = 32 ∨ c = 9) ∧ ¬ (c = 10) ∧ ¬ ((65 ≤ c ∧ c ≤ 90) ∨ (97 ≤ c ∧ c ≤ 122) ∨ c = 95) ∧ ¬ (c = 48) ∧ ¬ (49 ≤ c ∧ c ≤ 55) ∧ ¬ (c = 56 ∨ c = 57) ∧ ¬ (c = 47) ∧ ¬ (c = 42) := by omega
    rw [if_neg earlier.1, if_neg earlier.2.1, if_neg earlier.2.2.1, if_neg earlier.2.2.2.1, if_neg earlier.2.2.2.2.1, if_neg earlier.2.2.2.2.2.1, if_neg earlier.2.2.2.2.2.2.1, if_neg earlier.2.2.2.2.2.2.2, if_pos h]
  · rw [if_neg h.2.2.1, if_neg h.2.2.2.1, if_neg h.2.2.2.2.1, if_neg h.2.2.2.2.2.1, if_neg h.2.2.2.2.2.2.1, if_neg h.2.2.2.2.2.2.2.1, if_neg h.2.2.2.2.2.2.2.2.1, if_neg h.2.2.2.2.2.2.2.2.2.1, if_neg h.2.2.2.2.2.2.2.2.2.2, if_pos ⟨h.1, h.2.1⟩]
  · have earlier : ¬ (c = 32 ∨ c = 9) ∧ ¬ (c = 10) ∧ ¬ ((65 ≤ c ∧ c ≤ 90) ∨ (97 ≤ c ∧ c ≤ 122) ∨ c = 95) ∧ ¬ (c = 48) ∧ ¬ (49 ≤ c ∧ c ≤ 55) ∧ ¬ (c = 56 ∨ c = 57) ∧ ¬ (c = 47) ∧ ¬ (c = 42) ∧ ¬ (c = 43 ∨ c = 45 ∨ c = 37) ∧ ¬ (0 < c ∧ c ≤ 127) := by omega
    rw [if_neg earlier.1, if_neg earlier.2.1, if_neg earlier.2.2.1, if_neg earlier.2.2.2.1, if_neg earlier.2.2.2.2.1, if_neg earlier.2.2.2.2.2.1, if_neg earlier.2.2.2.2.2.2.1, if_neg earlier.2.2.2.2.2.2.2.1, if_neg earlier.2.2.2.2.2.2.2.2.1, if_neg earlier.2.2.2.2.2.2.2.2.2, if_pos h]
  · have earlier : ¬ (c = 32 ∨ c = 9) ∧ ¬ (c = 10) ∧ ¬ ((65 ≤ c ∧ c ≤ 90) ∨ (97 ≤ c ∧ c ≤ 122) ∨ c = 95) ∧ ¬ (c = 48) ∧ ¬ (49 ≤ c ∧ c ≤ 55) ∧ ¬ (c = 56 ∨ c = 57) ∧ ¬ (c = 47) ∧ ¬ (c = 42) ∧ ¬ (c = 43 ∨ c = 45 ∨ c = 37) ∧ ¬ (0 < c ∧ c ≤ 127) := by omega
    rw [if_neg earlier.1, if_neg earlier.2.1, if_neg earlier.2.2.1, if_neg earlier.2.2.2.1, if_neg earlier.2.2.2.2.1, if_neg earlier.2.2.2.2.2.1, if_neg earlier.2.2.2.2.2.2.1, if_neg earlier.2.2.2.2.2.2.2.1, if_neg earlier.2.2.2.2.2.2.2.2.1, if_neg earlier.2.2.2.2.2.2.2.2.2, if_neg h.2, if_pos h.1]

/-- C1 (the code departs from the claim): the byte 255 is a character of
the stream, not the end-of-stream sentinel (`getchar` delivers 255, which
differs from `EOF`, and the stream is not exhausted), and its value is
outside [0, 127], so the table gives it class 11; as the `char` argument of
`classification` it is -1, the test `input == EOF` holds and the function
returns 10.  Every other byte from 128 on is given 11, as the table says. -/
theorem classification_of_byte_255 :
    getchar [255, 97] = (255, [97]) ∧ (getchar [255, 97]).1 ≠ EOF ∧
    ¬ (0 ≤ (getchar [255, 97]).1 ∧ (getchar [255, 97]).1 ≤ 127) ∧
    toChar (getchar [255, 97]).1 = -1 ∧
    classification (toChar (getchar [255, 97]).1) = 10 ∧
    classification (toChar (getchar [255, 97]).1) ≠ 11 ∧
    (∀ b : Nat, 128 ≤ b → b < 255 →
      (getchar [b]).1 = (b : Int) ∧ classification (toChar (getchar [b]).1) = 11) := by
  refine ⟨by decide, by decide, by decide, by decide, by decide, by decide, fun b h1 h2 => ?_⟩
  have hb : b % 256 = b := Nat.mod_eq_of_lt (by omega)
  have hg : (getchar [b]).1 = (b : Int) := by
    show ((b % 256 : Nat) : Int) = (b : Int)
    rw [hb]
  refine ⟨hg, ?_⟩
  rw [hg]
  have hrow := (classification_table (toChar (b : Int))).2.2.2.2.2.2.2.2.2.2.2
  apply hrow
  unfold toChar EOF
  omega

/-! ## Properties of scanner -/

/-! ### Running the loop for more iterations -/

theorem scanLoop_accept (M : Matrix) (states accept : Int) (fuel : Nat) (st : ScanState)
    (s : List Nat) (h : st.current = accept) :
    scanLoop M states accept fuel st s = .done st s := by
  cases fuel <;> simp [scanLoop, h]

theorem scanLoop_zero_running (M : Matrix) (states accept : Int) (st : ScanState)
    (s : List Nat) (h : st.current ≠ accept) :
    scanLoop M states accept 0 st s = .running st s := by
  simp [scanLoop, h]

theorem scanLoop_succ (M : Matrix) (states accept : Int) (fuel : Nat) (st : ScanState)
    (s : List Nat) (h : st.current ≠ accept) :
    scanLoop M states accept (fuel + 1) st s =
      (scanBody M states accept st s).andThen (scanLoop M states accept fuel) := by
  simp [scanLoop, h]

theorem scanLoop_add (M : Matrix) (states accept : Int) (n m : Nat) :
    ∀ (st : ScanState) (s : List Nat),
    scanLoop M states accept (n + m) st s =
      (scanLoop M states accept n st s).andThen (scanLoop M states accept m) := by
  induction n with
  | zero =>
    intro st s
    by_cases h : st.current = accept
    · simp [scanLoop_accept, h, Config.andThen]
    · simp [scanLoop_zero_running, h, Config.andThen]
  | succ n ih =>
    intro st s
    by_cases h : st.current = accept
    · simp [scanLoop_accept, h, Config.andThen]
    · rw [show n + 1 + m = (n + m) + 1 by omega, scanLoop_succ _ _ _ _ _ _ h,
        scanLoop_succ _ _ _ _ _ _ h]
      cases hb : scanBody M states accept st s with
      | running st1 s1 => simp [ih, Config.andThen]
      | done st1 s1 => simp [Config.andThen]
      | fault f => simp [Config.andThen]

theorem scanLoop_done_mono (M : Matrix) (states accept : Int) (n k : Nat) (st st1 : ScanState)
    (s s1 : List Nat) (h : scanLoop M states accept n st s = .done st1 s1) :
    scanLoop M states accept (n + k) st s = .done st1 s1 := by
  rw [scanLoop_add, h]; rfl

theorem scanLoop_fault_mono (M : Matrix) (states accept : Int) (n k : Nat) (st : ScanState)
    (s : List Nat) (f : Fault) (h : scanLoop M states accept n st s = .fault f) :
    scanLoop M states accept (n + k) st s = .fault f := by
  rw [scanLoop_add, h]; rfl

theorem scanner_mono (M : Matrix) (states start accept : Int) (n k : Nat) (s : List Nat)
    (r : CallResult) (h : scanner n M states start accept s = some r) :
    scanner (n + k) M states start accept s = some r := by
  unfold scanner at h ⊢
  cases hl : scanLoop M states accept n (initialState start) s with
  | running st1 s1 => simp [hl] at h
  | done st1 s1 => rw [scanLoop_done_mono _ _ _ _ _ _ _ _ _ hl]; simpa [hl] using h
  | fault f => rw [scanLoop_fault_mono _ _ _ _ _ _ _ _ hl]; simpa [hl] using h

/-! ### One iteration of the loop -/

theorem scanBody_running {M : Matrix} {states accept : Int} {st st1 : ScanState}
    {s s1 : List Nat} (h : scanBody M states accept st s = .running st1 s1) :
    inBounds states st.current (classification (toChar (getchar s).1)) ∧
    s1 = (getchar s).2 ∧ st1.c = toChar (getchar s).1 ∧
    st1.current = (M st.current (classification (toChar (getchar s).1))).end_ ∧
    st1.printed = st.printed ++ [st1.current] ∧
    ¬ (toChar (getchar s).1 = EOF ∧ st.count = 0) ∧ st1.current ≠ 99 ∧
    (((M st.current (classification (toChar (getchar s).1))).action = 115 ∧
        st.count < 100 ∧ st1.buffer = st.buffer ++ [toChar (getchar s).1] ∧ st1.recognize = st.recognize) ∨
     ((M st.current (classification (toChar (getchar s).1))).action ≠ 115 ∧
        st1.buffer = st.buffer ∧
        ((st1.current = accept ∧ st1.recognize = 1 ∧ st.count < 100) ∨
         (st1.current ≠ accept ∧ st1.recognize = st.recognize)))) := by
  unfold scanBody at h
  dsimp only at h
  split_ifs at h with h1 h2 h3 h4 h5 h6 h7 <;> simp only [Config.running.injEq, reduceCtorEq] at h
  all_goals obtain ⟨rfl, rfl⟩ := h
  all_goals simp_all

theorem scanBody_done {M : Matrix} {states accept : Int} {st st1 : ScanState}
    {s s1 : List Nat} (h : scanBody M states accept st s = .done st1 s1) :
    inBounds states st.current (classification (toChar (getchar s).1)) ∧
    st1.current = (M st.current (classification (toChar (getchar s).1))).end_ ∧
    st1.printed = st.printed ++ [st1.current] ∧
    st1.buffer = st.buffer ∧ st1.recognize = st.recognize ∧
    ((toChar (getchar s).1 = EOF ∧ st.count = 0 ∧ st1.c = EOF ∧ s1 = (getchar s).2) ∨
     (¬ (toChar (getchar s).1 = EOF ∧ st.count = 0) ∧ st1.current = 99 ∧
        st1.c = (recover (getchar s).2).1 ∧ s1 = (recover (getchar s).2).2)) := by
  unfold scanBody at h
  dsimp only at h
  split_ifs at h with h1 h2 h3 h4 h5 h6 h7 <;> simp only [Config.done.injEq, reduceCtorEq] at h
  all_goals obtain ⟨rfl, rfl⟩ := h
  all_goals simp_all

theorem scanBody_fault {M : Matrix} {states accept : Int} {st : ScanState}
    {s : List Nat} {f : Fault} (h : scanBody M states accept st s = .fault f) :
    (¬ inBounds states st.current (classification (toChar (getchar s).1)) ∧
      f = .matrixIndex st.current (classification (toChar (getchar s).1))) ∨
    (inBounds states st.current (classification (toChar (getchar s).1)) ∧
      100 ≤ st.count ∧ f = .bufferIndex st.count) := by
  unfold scanBody at h
  dsimp only at h
  split_ifs at h with h1 h2 h3 h4 h5 h6 h7 <;> simp only [Config.fault.injEq, reduceCtorEq] at h
  all_goals subst h
  all_goals simp_all

/-! ### The lexeme of a recognized token -/

theorem getchar_snd (s : List Nat) : (getchar s).2 = s.drop 1 := by
  cases s <;> rfl

theorem char_ne_zero_of_inBounds {states cur c : Int}
    (h : inBounds states cur (classification c)) : c ≠ 0 := by
  intro hc
  subst hc
  unfold inBounds at h
  have : classification 0 = 12 := by decide
  omega

theorem cString_eq_self {l : List Int} (h : ∀ x ∈ l, x ≠ 0) : cString l = l := by
  unfold cString
  rw [List.takeWhile_eq_self_iff]
  intro x hx
  simpa using h x hx

theorem scanLoop_lexeme (M : Matrix) (states accept : Int) (fuel : Nat) :
    ∀ (st st1 : ScanState) (s s1 : List Nat), st.recognize ≠ 1 →
      scanLoop M states accept fuel st s = .done st1 s1 →
      ∃ new, st1.printed = st.printed ++ new ∧ followsTable M (st.current :: new) s ∧
        (st1.recognize = 1 →
          st1.buffer = st.buffer ++ shiftedChars M (st.current :: new) s ∧
          s1 = s.drop new.length ∧
          ∀ x ∈ shiftedChars M (st.current :: new) s, x ≠ 0) := by
  induction fuel with
  | zero =>
    intro st st1 s s1 hr h
    by_cases hc : st.current = accept
    · simp [scanLoop, hc] at h
      obtain ⟨rfl, rfl⟩ := h
      exact ⟨[], by simp, by simp [followsTable], fun h1 => absurd h1 hr⟩
    · simp [scanLoop, hc] at h
  | succ fuel ih =>
    intro st st1 s s1 hr h
    by_cases hc : st.current = accept
    · rw [scanLoop_accept _ _ _ _ _ _ hc] at h
      simp at h
      obtain ⟨rfl, rfl⟩ := h
      exact ⟨[], by simp, by simp [followsTable], fun h1 => absurd h1 hr⟩
    · rw [scanLoop_succ _ _ _ _ _ _ hc] at h
      cases hb : scanBody M states accept st s with
      | fault f => simp [hb, Config.andThen] at h
      | done st2 s2 =>
        simp [hb, Config.andThen] at h
        obtain ⟨rfl, rfl⟩ := h
        obtain ⟨_, h2, h3, _, h5, _⟩ := scanBody_done hb
        refine ⟨[st2.current], h3, ?_, fun h1 => absurd (h5 ▸ h1) hr⟩
        simp [followsTable, h2]
      | running st2 s2 =>
        simp [hb, Config.andThen] at h
        obtain ⟨hin, hs2, hc2, hcur, hpr, _, _, hcase⟩ := scanBody_running hb
        have hne := char_ne_zero_of_inBounds hin
        by_cases hr2 : st2.recognize = 1
        · -- the accept state was entered by a transition that does not shift
          rcases hcase with ⟨_, _, _, h3⟩ | ⟨hact, hbuf, hacc⟩
          · exact absurd (h3 ▸ hr2) hr
          · rcases hacc with ⟨hacc, _, _⟩ | ⟨_, h3⟩
            · rw [scanLoop_accept _ _ _ _ _ _ hacc] at h
              simp at h
              obtain ⟨rfl, rfl⟩ := h
              refine ⟨[st2.current], hpr, by simp [followsTable, hcur], fun _ => ?_⟩
              simp [shiftedChars, hact, hbuf, hs2, getchar_snd]
            · exact absurd (h3 ▸ hr2) hr
        · obtain ⟨new, hp, hf, hrec⟩ := ih st2 st1 s2 s1 hr2 h
          refine ⟨st2.current :: new, ?_, ?_, fun h1 => ?_⟩
          · rw [hp, hpr]; simp
          · simp only [followsTable]
            exact ⟨hcur, hs2 ▸ hf⟩
          · obtain ⟨hb1, hs1, hz⟩ := hrec h1
            subst hs2
            rcases hcase with ⟨hact, _, hbuf, _⟩ | ⟨hact, hbuf, _⟩
            · refine ⟨?_, ?_, ?_⟩
              · rw [hb1, hbuf]; simp [shiftedChars, hact]
              · rw [hs1, getchar_snd]; simp
              · intro x hx
                simp only [shiftedChars, hact, if_true, List.singleton_append,
                  List.mem_cons] at hx
                rcases hx with rfl | hx
                · exact hne
                · exact hz x hx
            · refine ⟨?_, ?_, ?_⟩
              · rw [hb1, hbuf]; simp [shiftedChars, hact]
              · rw [hs1, getchar_snd]; simp
              · intro x hx
                simp only [shiftedChars, hact, if_false, List.nil_append] at hx
                exact hz x hx

theorem report_recognized {st : ScanState} {lexeme : List Int}
    (h : report st = .recognized lexeme) : st.recognize = 1 ∧ lexeme = cString st.buffer := by
  unfold report at h
  split_ifs at h with h1 h2
  · simp at h; exact ⟨h1, h.symm⟩

theorem scanLoop_running (M : Matrix) (states accept : Int) (fuel : Nat) :
    ∀ (st st1 : ScanState) (s s1 : List Nat), st.recognize ≠ 1 →
      scanLoop M states accept fuel st s = .running st1 s1 →
      st1.recognize ≠ 1 ∧ st1.current ≠ accept := by
  induction fuel with
  | zero =>
    intro st st1 s s1 hr h
    by_cases hc : st.current = accept
    · simp [scanLoop, hc] at h
    · simp [scanLoop, hc] at h
      obtain ⟨rfl, rfl⟩ := h
      exact ⟨hr, hc⟩
  | succ fuel ih =>
    intro st st1 s s1 hr h
    by_cases hc : st.current = accept
    · simp [scanLoop_accept _ _ _ _ _ _ hc] at h
    · rw [scanLoop_succ _ _ _ _ _ _ hc] at h
      cases hb : scanBody M states accept st s with
      | fault f => simp [hb, Config.andThen] at h
      | done st2 s2 => simp [hb, Config.andThen] at h
      | running st2 s2 =>
        simp [hb, Config.andThen] at h
        obtain ⟨_, _, _, _, _, _, _, hcase⟩ := scanBody_running hb
        by_cases hr2 : st2.recognize = 1
        · rcases hcase with ⟨_, _, _, h3⟩ | ⟨_, _, ⟨hacc, _, _⟩ | ⟨_, h3⟩⟩
          · exact absurd (h3 ▸ hr2) hr
          · simp [scanLoop_accept _ _ _ _ _ _ hacc] at h
          · exact absurd (h3 ▸ hr2) hr
        · exact ih st2 st1 s2 s1 hr2 h

/-- C6: when a call of `scanner` ends in recognition, the lexeme it prints
is exactly the sequence, in stream order, of the characters read during the
call whose transition (from the state printed before the read) has the
action `'s'`; the printed states follow the table, and the call has consumed
exactly the characters it read. -/
theorem recognized_lexeme_is_shifted_characters (fuel : Nat) (matrix : Matrix)
    (states initial_state accept_state : Int) (stdin : List Nat) (r : ScanResult)
    (lexeme : List Int)
    (hcall : scanner fuel matrix states initial_state accept_state stdin = some (.returns r))
    (hrec : r.outcome = .recognized lexeme) :
    lexeme = shiftedChars matrix r.printed stdin ∧
    followsTable matrix r.printed stdin ∧
    r.stdin = stdin.drop (r.printed.length - 1) := by
  unfold scanner at hcall
  cases hl : scanLoop matrix states accept_state fuel (initialState initial_state) stdin with
  | running st s => simp [hl] at hcall
  | fault f => simp [hl] at hcall
  | done st s =>
    simp [hl] at hcall
    subst hcall
    obtain ⟨h1, h2⟩ := report_recognized hrec
    obtain ⟨new, hp, hf, hb⟩ := scanLoop_lexeme matrix states accept_state fuel _ _ _ _
      (by simp [initialState]) hl
    obtain ⟨hb1, hs, hz⟩ := hb h1
    simp only [initialState, List.nil_append, List.singleton_append] at hp hf hb1 hs hz
    simp only [hp]
    refine ⟨?_, hf, by simpa using hs⟩
    rw [h2, hb1, cString_eq_self hz]

/-- Witness of C6: the first call of the end-to-end example. -/
theorem recognized_lexeme_is_shifted_characters_witness :
    chars "abc" = shiftedChars exampleTable [0, 1, 1, 1, 2] (bytes "abc def") ∧
    followsTable exampleTable [0, 1, 1, 1, 2] (bytes "abc def") ∧
    bytes "def" = (bytes "abc def").drop ([0, 1, 1, 1, 2].length - 1) :=
  recognized_lexeme_is_shifted_characters 4 exampleTable 3 0 2 (bytes "abc def")
    { outcome := .recognized (chars "abc"), printed := [0, 1, 1, 1, 2], stdin := bytes "def" }
    (chars "abc") (by decide) rfl

/-- The iteration that reads the end of the stream while `count == 0`
leaves the loop, and the call returns 1. -/
theorem scanner_eof_break (matrix : Matrix)
    (states initial_state accept_state : Int) (stdin : List Nat) (k : Nat) (st : ScanState)
    (hrun : scanLoop matrix states accept_state k (initialState initial_state) stdin
      = .running st [])
    (hcount : st.count = 0)
    (hrow : 0 ≤ st.current ∧ st.current < states) (n : Nat) :
    scanner (k + (n + 1)) matrix states initial_state accept_state stdin =
      some (.returns { outcome := .endOfStream,
                       printed := st.printed ++ [(matrix st.current 10).end_],
                       stdin := [] }) := by
  obtain ⟨hr, hc⟩ := scanLoop_running matrix states accept_state k _ _ _ _
    (by simp [initialState]) hrun
  have hbody : scanBody matrix states accept_state st [] =
      .done { st with c := EOF, current := (matrix st.current 10).end_,
                      printed := st.printed ++ [(matrix st.current 10).end_] } [] := by
    have h10 : classification EOF = 10 := by decide
    have hE : toChar (getchar []).1 = EOF := by decide
    have hin : inBounds states st.current 10 := ⟨hrow.1, hrow.2, by decide, by decide⟩
    unfold scanBody
    simp only [hE, h10]
    simp [hin, hcount, getchar]
  unfold scanner
  rw [scanLoop_add, hrun]
  simp only [Config.andThen]
  rw [scanLoop_succ _ _ _ _ _ _ hc, hbody]
  simp [Config.andThen, report, hr, EOF]


/-- C8: when the loop of a call, after `k` iterations, is still running with
no character shifted (`count == 0`) and standard input is exhausted, the next
read delivers `EOF` and the call returns 1 (EndOfStream) in that iteration,
whatever entry the table holds in the cell (current state, 10). -/
theorem end_of_stream_with_nothing_shifted (matrix : Matrix)
    (states initial_state accept_state : Int) (stdin : List Nat) (k : Nat) (st : ScanState)
    (hrun : scanLoop matrix states accept_state k (initialState initial_state) stdin
      = .running st [])
    (hcount : st.count = 0)
    (hrow : 0 ≤ st.current ∧ st.current < states) (n : Nat) :
    scanner (k + (n + 1)) matrix states initial_state accept_state stdin =
      some (.returns { outcome := .endOfStream,
                       printed := st.printed ++ [(matrix st.current 10).end_],
                       stdin := [] }) ∧
    Outcome.returnValue .endOfStream = 1 :=
  ⟨scanner_eof_break matrix states initial_state accept_state stdin k st hrun hcount hrow n,
    rfl⟩

/-- Witness of C8: two spaces are skipped by Moves, then the stream ends. -/
theorem end_of_stream_with_nothing_shifted_witness :
    scanner (2 + (0 + 1)) skipSpacesTable 2 0 1 (bytes "  ") =
      some (.returns { outcome := .endOfStream,
                       printed := [0, 0, 0] ++ [(skipSpacesTable 0 10).end_],
                       stdin := [] }) ∧
    Outcome.returnValue .endOfStream = 1 :=
  end_of_stream_with_nothing_shifted skipSpacesTable 2 0 1 (bytes "  ") 2
    { c := 32, current := 0, recognize := 0, buffer := [], printed := [0, 0, 0] }
    (by decide) rfl (by decide) 0

/-- C9: once a call of `scanner` has returned 1 (EndOfStream) and left
standard input exhausted, a further call with the same table on that stream
returns 1 again and leaves the stream exhausted, so that every subsequent
call does. -/
theorem end_of_stream_is_idempotent (fuel : Nat) (matrix : Matrix)
    (states initial_state accept_state : Int) (stdin : List Nat) (r : ScanResult)
    (hcall : scanner fuel matrix states initial_state accept_state stdin = some (.returns r))
    (hend : r.outcome = .endOfStream) (hexhausted : r.stdin = []) (n : Nat) :
    scanner (n + 1) matrix states initial_state accept_state r.stdin =
      some (.returns { outcome := .endOfStream,
                       printed := [initial_state, (matrix initial_state 10).end_],
                       stdin := [] }) := by
  rw [hexhausted]
  -- the first call ran the loop body, so the start state is a row of the matrix
  have hne : initial_state ≠ accept_state := by
    intro he
    unfold scanner at hcall
    rw [scanLoop_accept _ _ _ _ _ _ (by simpa [initialState] using he)] at hcall
    simp at hcall
    subst hcall
    simp [report, initialState, EOF] at hend
  have hrow : 0 ≤ initial_state ∧ initial_state < states := by
    unfold scanner at hcall
    cases fuel with
    | zero => simp [scanLoop, initialState, hne] at hcall
    | succ fuel =>
      rw [scanLoop_succ _ _ _ _ _ _ (by simpa [initialState] using hne)] at hcall
      cases hb : scanBody matrix states accept_state (initialState initial_state) stdin with
      | fault f => simp [hb, Config.andThen] at hcall
      | done st2 s2 =>
        have := (scanBody_done hb).1
        exact ⟨this.1, this.2.1⟩
      | running st2 s2 =>
        have := (scanBody_running hb).1
        exact ⟨this.1, this.2.1⟩
  have h0 : scanLoop matrix states accept_state 0 (initialState initial_state) [] =
      .running (initialState initial_state) [] :=
    scanLoop_zero_running _ _ _ _ _ (by simpa [initialState] using hne)
  have := scanner_eof_break matrix states initial_state accept_state [] 0
    (initialState initial_state) h0 rfl hrow n
  simpa [initialState] using this

/-- Witness of C9: the third call of the end-to-end example and the calls
after it. -/
theorem end_of_stream_is_idempotent_witness :
    scanner (0 + 1) exampleTable 3 0 2 [] =
      some (.returns { outcome := .endOfStream,
                       printed := [0, (exampleTable 0 10).end_],
                       stdin := [] }) :=
  end_of_stream_is_idempotent 1 exampleTable 3 0 2 []
    { outcome := .endOfStream, printed := [0, 99], stdin := [] } (by decide) rfl rfl 0

/-! ### Only the cells inside the matrix are read -/

theorem scanBody_congr {M M1 : Matrix} {states : Int}
    (h : ∀ i x, inBounds states i x → M i x = M1 i x) (accept : Int) (st : ScanState)
    (s : List Nat) : scanBody M states accept st s = scanBody M1 states accept st s := by
  unfold scanBody
  dsimp only
  by_cases hin : inBounds states st.current (classification (toChar (getchar s).1))
  · rw [h _ _ hin]
  · simp [hin]

theorem scanLoop_congr {M M1 : Matrix} {states : Int}
    (h : ∀ i x, inBounds states i x → M i x = M1 i x) (accept : Int) (fuel : Nat) :
    ∀ (st : ScanState) (s : List Nat),
      scanLoop M states accept fuel st s = scanLoop M1 states accept fuel st s := by
  induction fuel with
  | zero => intro st s; simp [scanLoop]
  | succ fuel ih =>
    intro st s
    simp only [scanLoop, scanBody_congr h]
    congr 2
    funext st1 s1
    exact ih st1 s1

theorem scanner_congr {M M1 : Matrix} {states : Int}
    (h : ∀ i x, inBounds states i x → M i x = M1 i x) (fuel : Nat) (start accept : Int)
    (s : List Nat) : scanner fuel M states start accept s = scanner fuel M1 states start accept s := by
  unfold scanner
  rw [scanLoop_congr h]

theorem exampleDescription_builds (garbage : Matrix) :
    ∃ table, matrixBuilder 3 exampleDescription garbage = some table ∧
      ∀ i x, inBounds 3 i x → table i x = exampleTable i x := by
  refine ⟨_, rfl, ?_⟩
  rintro i x ⟨h1, h2, h3, h4⟩
  interval_cases i <;> interval_cases x <;> rfl

/-- C5: the end-to-end example.  From the description of the example table
(states 3, start 0, accept 2), whatever the array held before,
`matrixBuilder` builds a matrix that is the example table on every cell, and
with it three successive calls of `scanner` on `"abc def"` recognize `"abc"`,
then recognize `"def"`, then return 1 (EndOfStream). -/
theorem end_to_end_example (garbage : Matrix) :
    ∃ table, matrixBuilder 3 exampleDescription garbage = some table ∧
      (∀ i x, inBounds 3 i x → table i x = exampleTable i x) ∧
      ∀ n,
        scanner (4 + n) table 3 0 2 (bytes "abc def") =
          some (.returns { outcome := .recognized (chars "abc"),
                           printed := [0, 1, 1, 1, 2], stdin := bytes "def" }) ∧
        scanner (4 + n) table 3 0 2 (bytes "def") =
          some (.returns { outcome := .recognized (chars "def"),
                           printed := [0, 1, 1, 1, 2], stdin := [] }) ∧
        scanner (1 + n) table 3 0 2 [] =
          some (.returns { outcome := .endOfStream, printed := [0, 99], stdin := [] }) ∧
        Outcome.returnValue .endOfStream = 1 := by
  obtain ⟨table, hb, hcells⟩ := exampleDescription_builds garbage
  refine ⟨table, hb, hcells, fun n => ⟨?_, ?_, ?_, rfl⟩⟩
  · apply scanner_mono
    rw [scanner_congr hcells]
    decide
  · apply scanner_mono
    rw [scanner_congr hcells]
    decide
  · apply scanner_mono
    rw [scanner_congr hcells]
    decide

/-! ### Dead-state recovery and the buffer -/

/-- Recovery leaves standard input just after its first delimiter. -/
theorem recover_rest (stdin : List Nat) : (recover stdin).2 = skipToDelimiter stdin := by
  induction stdin with
  | nil => rfl
  | cons b rest ih =>
    have hd : isDelimiter b = (classification (toChar ((b % 256 : Nat) : Int)) == 10
        || classification (toChar ((b % 256 : Nat) : Int)) == 0
        || classification (toChar ((b % 256 : Nat) : Int)) == 1) := rfl
    have hr : recover (b :: rest) =
        if classification (toChar ((b % 256 : Nat) : Int)) ≠ 10 ∧
            classification (toChar ((b % 256 : Nat) : Int)) ≠ 0 ∧
            classification (toChar ((b % 256 : Nat) : Int)) ≠ 1 then recover rest
        else (toChar ((b % 256 : Nat) : Int), rest) := rfl
    have hs : skipToDelimiter (b :: rest) =
        if isDelimiter b = true then rest else skipToDelimiter rest := by
      unfold skipToDelimiter
      rw [List.dropWhile_cons]
      by_cases h : isDelimiter b = true
      · simp [h]
      · simp [h]
    rw [hr, hs, hd]
    generalize classification (toChar ((b % 256 : Nat) : Int)) = k
    by_cases h : k ≠ 10 ∧ k ≠ 0 ∧ k ≠ 1
    · have h1 : ¬ ((k == 10 || k == 0 || k == 1) = true) := by
        simp only [Bool.or_eq_true, beq_iff_eq, not_or]
        tauto
      rw [if_pos h, if_neg h1, ih]
    · have h1 : (k == 10 || k == 0 || k == 1) = true := by
        simp only [Bool.or_eq_true, beq_iff_eq]
        simp only [ne_eq, not_and_or, not_not] at h
        tauto
      rw [if_neg h, if_pos h1]

/-- An iteration that leaves the loop without having read `EOF` at
`count == 0` has entered the dead state, and its recovery has consumed
standard input through the first delimiter after the character read. -/
theorem scanBody_dead_state {M : Matrix} {states accept : Int} {st st1 : ScanState}
    {s s1 : List Nat} (h : scanBody M states accept st s = .done st1 s1)
    (hne : ¬ (toChar (getchar s).1 = EOF ∧ st.count = 0)) :
    st1.current = 99 ∧ s1 = skipToDelimiter (getchar s).2 := by
  obtain ⟨_, _, _, _, _, hcase⟩ := scanBody_done h
  rcases hcase with ⟨h1, h2, _, _⟩ | ⟨_, h2, _, h4⟩
  · exact absurd ⟨h1, h2⟩ hne
  · exact ⟨h2, by rw [h4, recover_rest]⟩

/-- C7 (the code departs from the claim): on `"1bc "` the first call
enters the dead state on `'1'`, is rejected and leaves the stream just past
the space, as the claim says; on the bytes 255, `'b'`, `' '` the call enters
the dead state on the byte 255, which `char c` holds as -1 = `EOF`, and
returns 1 with `"b "` unread, where the claim has the stream consumed through
the space. -/
theorem resynchronization_fails_on_byte_255 :
    scanner 1 exampleTable 3 0 2 (bytes "1bc ") =
      some (.returns { outcome := .rejected, printed := [0, 99], stdin := [] }) ∧
    scanner 1 exampleTable 3 0 2 [255, 98, 32] =
      some (.returns { outcome := .endOfStream, printed := [0, 99], stdin := [98, 32] }) ∧
    skipToDelimiter [98, 32] = [] := by
  decide

set_option maxRecDepth 100000 in
/-- C10 (the code departs from the claim): with the example table, 101
letters make the call write `buffer[100]`, and so do 100 letters followed by
a space (the terminating zero); no rejection takes place. -/
theorem lexeme_buffer_overrun :
    scanner 101 exampleTable 3 0 2 (List.replicate 101 97) =
      some (.faults (.bufferIndex 100)) ∧
    scanner 101 exampleTable 3 0 2 (List.replicate 100 97 ++ [32]) =
      some (.faults (.bufferIndex 100)) := by
  decide!

/-- C2 (the code departs from the claim): the character 0 classifies as
12, which is not a column of the 12-column table, and a call of `scanner`
that reads a zero byte indexes the table at column 12. -/
theorem classification_of_nul :
    classification 0 = 12 ∧
    scanner 1 exampleTable 3 0 2 [0] = some (.faults (.matrixIndex 0 12)) := by
  decide

/-! ## Properties of matrixBuilder -/

/-! ### The two loop nests -/

theorem Matrix.set_apply (M : Matrix) (row col : Int) (t : Transition) (i x : Int) :
    (M.set row col t) i x = if i = row ∧ x = col then t else M i x := rfl

theorem forCols_apply (f : Int → Transition → Transition) (i : Int) (n : Nat) :
    ∀ (M : Matrix) (i1 x1 : Int),
      forCols f i n M i1 x1
        = if i1 = i ∧ 0 ≤ x1 ∧ x1 < (n : Int) then f x1 (M i1 x1) else M i1 x1 := by
  induction n with
  | zero =>
    intro M i1 x1
    have : ¬ (i1 = i ∧ 0 ≤ x1 ∧ x1 < ((0 : Nat) : Int)) := by omega
    rw [if_neg this]
    rfl
  | succ n ih =>
    intro M i1 x1
    have hstep : forCols f i (n + 1) M =
        (forCols f i n M).set i (n : Int) (f (n : Int) (forCols f i n M i (n : Int))) := by
      unfold forCols
      rw [List.range_succ, List.foldl_append]
      rfl
    rw [hstep, Matrix.set_apply, ih, ih]
    by_cases h1 : i1 = i ∧ x1 = (n : Int)
    · obtain ⟨rfl, rfl⟩ := h1
      have h3 : ¬ (i1 = i1 ∧ (0 : Int) ≤ (n : Int) ∧ (n : Int) < (n : Int)) := by omega
      have h4 : i1 = i1 ∧ (0 : Int) ≤ (n : Int) ∧ ((n : Int) < ((n + 1 : Nat) : Int)) :=
        ⟨rfl, by omega, by omega⟩
      rw [if_pos ⟨rfl, rfl⟩, if_neg h3, if_pos h4]
    · rw [if_neg h1]
      by_cases h3 : i1 = i ∧ 0 ≤ x1 ∧ x1 < (n : Int)
      · have h4 : i1 = i ∧ 0 ≤ x1 ∧ x1 < ((n + 1 : Nat) : Int) := ⟨h3.1, h3.2.1, by omega⟩
        rw [if_pos h3, if_pos h4]
      · have h4 : ¬ (i1 = i ∧ 0 ≤ x1 ∧ x1 < ((n + 1 : Nat) : Int)) := by
          intro h
          rcases h with ⟨h5, h6, h7⟩
          by_cases h8 : x1 = (n : Int)
          · exact h1 ⟨h5, h8⟩
          · exact h3 ⟨h5, h6, by omega⟩
        rw [if_neg h3, if_neg h4]

theorem forRows_apply (f : Int → Transition → Transition) (n : Nat) :
    ∀ (M : Matrix) (i1 x1 : Int),
      forRows f n M i1 x1
        = if 0 ≤ i1 ∧ i1 < (n : Int) ∧ 0 ≤ x1 ∧ x1 < 12 then f x1 (M i1 x1)
          else M i1 x1 := by
  induction n with
  | zero =>
    intro M i1 x1
    have : ¬ (0 ≤ i1 ∧ i1 < ((0 : Nat) : Int) ∧ 0 ≤ x1 ∧ x1 < 12) := by omega
    rw [if_neg this]
    rfl
  | succ n ih =>
    intro M i1 x1
    have hstep : forRows f (n + 1) M = forCols f (n : Int) 12 (forRows f n M) := by
      unfold forRows
      rw [List.range_succ, List.foldl_append]
      rfl
    rw [hstep, forCols_apply, ih]
    by_cases h1 : i1 = (n : Int) ∧ 0 ≤ x1 ∧ x1 < ((12 : Nat) : Int)
    · have h3 : ¬ (0 ≤ i1 ∧ i1 < (n : Int) ∧ 0 ≤ x1 ∧ x1 < 12) := by omega
      have h4 : 0 ≤ i1 ∧ i1 < ((n + 1 : Nat) : Int) ∧ 0 ≤ x1 ∧ x1 < 12 := by omega
      rw [if_pos h1, if_neg h3, if_pos h4]
    · rw [if_neg h1]
      by_cases h3 : 0 ≤ i1 ∧ i1 < (n : Int) ∧ 0 ≤ x1 ∧ x1 < 12
      · have h4 : 0 ≤ i1 ∧ i1 < ((n + 1 : Nat) : Int) ∧ 0 ≤ x1 ∧ x1 < 12 := by omega
        rw [if_pos h3, if_pos h4]
      · have h4 : ¬ (0 ≤ i1 ∧ i1 < ((n + 1 : Nat) : Int) ∧ 0 ≤ x1 ∧ x1 < 12) := by omega
        rw [if_neg h3, if_neg h4]

theorem forCells_apply (states : Int) (f : Int → Transition → Transition) (M : Matrix)
    (i x : Int) :
    forCells states f M i x = if inBounds states i x then f x (M i x) else M i x := by
  unfold forCells
  rw [forRows_apply]
  unfold inBounds
  by_cases h : 0 ≤ i ∧ i < states ∧ 0 ≤ x ∧ x < 12
  · have h1 : 0 ≤ i ∧ i < (states.toNat : Int) ∧ 0 ≤ x ∧ x < 12 := by omega
    rw [if_pos h, if_pos h1]
  · have h1 : ¬ (0 ≤ i ∧ i < (states.toNat : Int) ∧ 0 ≤ x ∧ x < 12) := by omega
    rw [if_neg h, if_neg h1]

theorem markUnset_apply (states : Int) (M : Matrix) (i x : Int) :
    markUnset states M i x =
      if inBounds states i x then { M i x with end_ := -1 } else M i x := by
  unfold markUnset
  rw [forCells_apply]

theorem fillDefaults_apply (states : Int) (M : Matrix) (i x : Int) :
    fillDefaults states M i x =
      if inBounds states i x ∧ (M i x).end_ = -1 then
        { class_ := x, end_ := 99, action := 100 }
      else M i x := by
  unfold fillDefaults
  rw [forCells_apply]
  by_cases h1 : inBounds states i x
  · by_cases h2 : (M i x).end_ = -1
    · rw [if_pos h1, if_pos h2, if_pos ⟨h1, h2⟩]
    · rw [if_pos h1, if_neg h2, if_neg (fun h => h2 h.2)]
  · rw [if_neg h1, if_neg (fun h => h1 h.1)]

/-! ### Cells that are never assigned -/

theorem Frame.refl (st : BuilderState) : Frame st st :=
  ⟨[], by simp, fun _ _ _ => rfl⟩

theorem Frame.trans {a b c : BuilderState} (h1 : Frame a b) (h2 : Frame b c) : Frame a c := by
  obtain ⟨n1, hw1, hm1⟩ := h1
  obtain ⟨n2, hw2, hm2⟩ := h2
  refine ⟨n1 ++ n2, by rw [hw2, hw1, List.append_assoc], fun i x hx => ?_⟩
  rw [List.mem_append, not_or] at hx
  rw [hm2 i x hx.2, hm1 i x hx.1]

theorem sscanf_frame {token : List Nat} {st st1 : BuilderState}
    (h : sscanf token st = some st1) :
    st1.matrix = st.matrix ∧ st1.written = st.written ∧ st1.row = st.row := by
  unfold sscanf at h
  split at h
  · simp at h; subst h; exact ⟨rfl, rfl, rfl⟩
  · split_ifs at h
    split at h
    · simp at h; subst h; exact ⟨rfl, rfl, rfl⟩
    · split at h
      · simp at h; subst h; exact ⟨rfl, rfl, rfl⟩
      · split_ifs at h
        split at h
        · simp at h; subst h; exact ⟨rfl, rfl, rfl⟩
        · simp at h; subst h; exact ⟨rfl, rfl, rfl⟩

theorem ruleToken_frame {states : Int} {token : List Nat} {st st1 : BuilderState}
    (h : ruleToken states st token = some st1) : Frame st st1 := by
  unfold ruleToken at h
  split at h
  · simp at h
  · rename_i st2 hs
    obtain ⟨hm, hw, _⟩ := sscanf_frame hs
    split_ifs at h
    simp at h
    subst h
    refine ⟨[(st2.row, st2.col)], by simp [hw], fun i x hx => ?_⟩
    simp only [List.mem_singleton, Prod.mk.injEq] at hx
    simp only [Matrix.set_apply, if_neg hx, hm]

theorem foldlM_ruleToken_frame {states : Int} (tokens : List (List Nat)) :
    ∀ {st st1 : BuilderState}, tokens.foldlM (ruleToken states) st = some st1 →
      Frame st st1 := by
  induction tokens with
  | nil => intro st st1 h; simp at h; subst h; exact Frame.refl _
  | cons t ts ih =>
    intro st st1 h
    simp only [List.foldlM_cons] at h
    cases ht : ruleToken states st t with
    | none => simp [ht] at h
    | some st2 =>
      simp [ht] at h
      exact (ruleToken_frame ht).trans (ih h)

theorem readLine_frame {states : Int} {buf : List Nat} {st st1 : BuilderState}
    (h : readLine states st buf = some st1) : Frame st st1 := by
  unfold readLine at h
  split_ifs at h
  · simp at h; subst h; exact Frame.refl _
  · split at h
    · simp at h
    · split at h
      · simp at h
      · have := foldlM_ruleToken_frame _ h
        exact this

theorem readLines_frame {states : Int} (fuel : Nat) :
    ∀ {fp : List Nat} {st st1 : BuilderState}, readLines states fuel fp st = some st1 →
      Frame st st1 := by
  induction fuel with
  | zero => intro fp st st1 h; simp [readLines] at h; subst h; exact Frame.refl _
  | succ fuel ih =>
    intro fp st st1 h
    cases fp with
    | nil => simp [readLines] at h; subst h; exact Frame.refl _
    | cons b fp =>
      simp only [readLines] at h
      split at h
      · simp at h
      · rename_i st2 hl
        exact (readLine_frame hl).trans (ih h)

/-- Default fill: for every state count and description on which
`matrixBuilder` has defined behaviour, every cell `[i][x]` of the matrix with
`0 <= i < states` and `0 <= x < 12` that lines 131-133 never assigned holds
`class = x`, `end = 99` and the action `'d'`, which is not `'s'`. -/
theorem unassigned_cell_holds_default (states : Int) (fp : List Nat) (garbage : Matrix) (st : BuilderState)
    (hrun : matrixBuilderRun states fp garbage = some st)
    (i x : Int) (hin : 0 ≤ i ∧ i < states ∧ 0 ≤ x ∧ x < 12)
    (hunset : (i, x) ∉ st.written) :
    matrixBuilder states fp garbage = some st.matrix ∧
    st.matrix i x = { class_ := x, end_ := 99, action := 100 } ∧
    (st.matrix i x).action ≠ 115 := by
  have hin : inBounds states i x := hin
  have hb : matrixBuilder states fp garbage = some st.matrix := by
    simp [matrixBuilder, hrun]
  unfold matrixBuilderRun at hrun
  dsimp only at hrun
  split at hrun
  · simp at hrun
  · rename_i st2 hl
    simp at hrun
    subst hrun
    obtain ⟨new, hw, hm⟩ := readLines_frame _ hl
    simp only [List.nil_append] at hw
    have hcell : st2.matrix i x = { garbage i x with end_ := -1 } := by
      rw [hm i x (by rw [← hw]; exact hunset)]
      show markUnset states garbage i x = _
      rw [markUnset_apply, if_pos hin]
    have hfill : (fillDefaults states st2.matrix) i x = { class_ := x, end_ := 99, action := 100 } := by
      rw [fillDefaults_apply, if_pos ⟨hin, by rw [hcell]⟩]
    refine ⟨hb, hfill, ?_⟩
    show (fillDefaults states st2.matrix i x).action ≠ 115
    rw [hfill]
    show (100 : Int) ≠ 115
    decide

/-- The cell (2, 11) of the example, which no token assigns, holds the
default entry. -/
theorem unassigned_cell_holds_default_example :
    ∃ st, matrixBuilderRun 3 exampleDescription zeroMatrix = some st ∧
      (2, 11) ∉ st.written ∧
      st.matrix 2 11 = { class_ := 11, end_ := 99, action := 100 } := by
  refine ⟨_, rfl, by decide, ?_⟩
  exact (unassigned_cell_holds_default 3 exampleDescription zeroMatrix _ rfl 2 11 (by decide) (by decide)).2.1

/-- C3 (the code departs from the claim): the line `"1 \n"` holds no
rule, but `strtok` cuts it into the tokens `"1"` and `"\n"`; `sscanf` converts
nothing from `"\n"`, leaves `col`, `target` and `action` as the rule `2/1s` of
the line before set them, and lines 131-133 assign `matrix[1][2]`.  The cell
(1, 2), which no rule of the description sets, ends as (2, 1, 's') and not as
the default (2, 99, 'd'); the cell (1, 3) holds the default. -/
theorem default_fill_fails_after_trailing_space :
    strtokAll (bytes "1 \n") = [bytes "1", bytes "\n"] ∧
    (matrixBuilderRun 3 trailingSpaceDescription zeroMatrix).map (fun st => st.written)
      = some [(0, 2), (1, 2)] ∧
    (matrixBuilder 3 trailingSpaceDescription zeroMatrix).map (fun table => table 1 2)
      = some { class_ := 2, end_ := 1, action := 115 } ∧
    (matrixBuilder 3 trailingSpaceDescription zeroMatrix).map (fun table => table 1 3)
      = some { class_ := 3, end_ := 99, action := 100 } := by
  decide

/-! ### Reading the numbers and tokens of a well-formed line -/

theorem scanDigits_append (ds rest : List Nat) (hds : ∀ d ∈ ds, isdigit d = true)
    (hrest : ∀ d, rest.head? = some d → isdigit d = false) :
    ∀ a, scanDigits a (ds ++ rest) = (ds.foldl (fun a d => a * 10 + (d - 48)) a, rest) := by
  induction ds with
  | nil =>
    intro a
    cases rest with
    | nil => rfl
    | cons c s =>
      have := hrest c rfl
      simp [scanDigits, this]
  | cons d ds ih =>
    intro a
    have hd := hds d (List.mem_cons_self _ _)
    simp only [List.cons_append, scanDigits, hd, if_true, List.foldl_cons]
    exact ih (fun d1 h1 => hds d1 (List.mem_cons_of_mem _ h1)) _

theorem decimalDigits_spec (fuel : Nat) :
    ∀ n, n < fuel →
      (∀ d ∈ decimalDigits fuel n, isdigit d = true) ∧ decimalDigits fuel n ≠ [] ∧
      (decimalDigits fuel n).foldl (fun a d => a * 10 + (d - 48)) 0 = n := by
  induction fuel with
  | zero => intro n h; omega
  | succ fuel ih =>
    intro n h
    unfold decimalDigits
    by_cases h10 : n < 10
    · rw [if_pos h10]
      refine ⟨?_, by simp, by simp⟩
      intro d hd
      simp only [List.mem_singleton] at hd
      subst hd
      simp only [isdigit, Bool.and_eq_true, decide_eq_true_eq]
      omega
    · rw [if_neg h10]
      obtain ⟨h1, h2, h3⟩ := ih (n / 10) (by omega)
      refine ⟨?_, by simp, ?_⟩
      · intro d hd
        rw [List.mem_append] at hd
        rcases hd with hd | hd
        · exact h1 d hd
        · simp only [List.mem_singleton] at hd
          subst hd
          simp only [isdigit, Bool.and_eq_true, decide_eq_true_eq]
          omega
      · rw [List.foldl_append, h3]
        simp only [List.foldl_cons, List.foldl_nil]
        omega

theorem decimal_spec (n : Nat) :
    (∀ d ∈ decimal n, isdigit d = true) ∧ decimal n ≠ [] ∧
      (decimal n).foldl (fun a d => a * 10 + (d - 48)) 0 = n :=
  decimalDigits_spec (n + 1) n (by omega)

theorem isdigit_range {d : Nat} (h : isdigit d = true) : 48 ≤ d ∧ d ≤ 57 := by
  simpa [isdigit] using h

theorem scanInt_decimal (n : Nat) (rest : List Nat)
    (hrest : ∀ d, rest.head? = some d → isdigit d = false) :
    scanInt (decimal n ++ rest) = some ((n : Int), rest) := by
  obtain ⟨h1, h2, h3⟩ := decimal_spec n
  have hsd := scanDigits_append (decimal n) rest h1 hrest 0
  rw [h3] at hsd
  cases hdec : decimal n with
  | nil => exact absurd hdec h2
  | cons d ds =>
    rw [hdec] at hsd
    have hd : isdigit d = true := h1 d (by rw [hdec]; exact List.mem_cons_self _ _)
    have hr := isdigit_range hd
    have hsp : isspace d = false := by
      simp only [isspace, Bool.or_eq_false_iff, beq_eq_false_iff_ne, ne_eq,
        Bool.and_eq_false_iff, decide_eq_false_iff_not]
      omega
    have h45 : d ≠ 45 := by omega
    have h43 : d ≠ 43 := by omega
    unfold scanInt
    simp only [List.cons_append, List.dropWhile_cons, hsp, Bool.false_eq_true, if_false,
      List.head?_cons]
    rw [List.cons_append] at hsd
    simp [h45, h43, hd, hsd]

theorem atoi_decimal (n : Nat) (rest : List Nat)
    (hrest : ∀ d, rest.head? = some d → isdigit d = false) (hn : (n : Int) ≤ 2147483647) :
    atoi (decimal n ++ rest) = some (n : Int) := by
  unfold atoi
  rw [scanInt_decimal n rest hrest]
  have : isInt (n : Int) := ⟨by omega, hn⟩
  simp [this]

theorem rule_text_append (r : Rule) (junk : List Nat) :
    r.text ++ junk = decimal r.class_ ++ 47 :: (decimal r.nextState ++ r.actionChar :: junk) := by
  simp [Rule.text]

theorem sscanf_rule (r : Rule) (junk : List Nat) (st : BuilderState)
    (hc : (r.class_ : Int) ≤ 2147483647) (hn : (r.nextState : Int) ≤ 2147483647)
    (ha : isdigit r.actionChar = false) :
    sscanf (r.text ++ junk) st =
      some { st with col := r.class_, slash := toChar 47, target := r.nextState,
                     action := toChar r.actionChar } := by
  rw [rule_text_append]
  unfold sscanf
  rw [scanInt_decimal r.class_ _ (by intro d hd; simp at hd; subst hd; decide)]
  have h1 : isInt (r.class_ : Int) := ⟨by omega, hc⟩
  have h2 : isInt (r.nextState : Int) := ⟨by omega, hn⟩
  simp only [h1, not_true_eq_false, if_false]
  rw [scanInt_decimal r.nextState _ (by intro d hd; simp at hd; subst hd; exact ha)]
  simp only [h2, not_true_eq_false, if_false]
  rfl

theorem ruleToken_rule (states : Int) (r : Rule) (junk : List Nat) (st : BuilderState)
    (hstates : states ≤ 2147483647) (hwf : r.wellFormed states)
    (hrow : 0 ≤ st.row ∧ st.row < states) :
    ∃ st1, ruleToken states st (r.text ++ junk) = some st1 ∧ st1.row = st.row ∧
      st1.matrix = st.matrix.set st.row r.class_
        { class_ := r.class_, end_ := r.nextState, action := toChar r.actionChar } ∧
      st1.written = st.written ++ [(st.row, (r.class_ : Int))] := by
  obtain ⟨h1, h2, h3⟩ := hwf
  have hn : (r.nextState : Int) ≤ 2147483647 := by
    rcases h2 with h2 | h2
    · omega
    · omega
  unfold ruleToken
  rw [sscanf_rule r junk st (by omega) hn h3.2.2.2.2]
  have hin : inBounds states st.row (r.class_ : Int) := ⟨hrow.1, hrow.2, by omega, h1⟩
  simp only [hin, if_true]
  exact ⟨_, rfl, rfl, rfl, rfl⟩

theorem splitSpaces_append_space (w rest : List Nat) (hw : ∀ c ∈ w, c ≠ 32) :
    splitSpaces (w ++ 32 :: rest) = w :: splitSpaces rest := by
  induction w with
  | nil => simp [splitSpaces]
  | cons b w ih =>
    have hb : b ≠ 32 := hw b (List.mem_cons_self _ _)
    have := ih (fun c hc => hw c (List.mem_cons_of_mem _ hc))
    simp [splitSpaces, hb, this]

theorem splitSpaces_no_space (w : List Nat) (hw : ∀ c ∈ w, c ≠ 32) :
    splitSpaces w = [w] := by
  induction w with
  | nil => simp [splitSpaces]
  | cons b w ih =>
    have hb : b ≠ 32 := hw b (List.mem_cons_self _ _)
    have := ih (fun c hc => hw c (List.mem_cons_of_mem _ hc))
    simp [splitSpaces, hb, this]

theorem strtokAll_cons_space (rest : List Nat) :
    strtokAll (32 :: rest) = strtokAll rest := by
  simp [strtokAll, splitSpaces]

theorem strtokAll_append_space (w rest : List Nat) (hw : ∀ c ∈ w, c ≠ 32) (hne : w ≠ []) :
    strtokAll (w ++ 32 :: rest) = w :: strtokAll rest := by
  unfold strtokAll
  rw [splitSpaces_append_space w rest hw]
  simp [hne]

theorem strtokAll_no_space (w : List Nat) (hw : ∀ c ∈ w, c ≠ 32) (hne : w ≠ []) :
    strtokAll w = [w] := by
  unfold strtokAll
  rw [splitSpaces_no_space w hw]
  simp [hne]

theorem decimal_chars (n : Nat) : ∀ c ∈ decimal n, c ≠ 32 ∧ c ≠ 0 ∧ c ≠ 10 := by
  intro c hc
  have := isdigit_range ((decimal_spec n).1 c hc)
  omega

theorem rule_text_chars (r : Rule) (ha : actionCharOk r.actionChar) :
    ∀ c ∈ r.text, c ≠ 32 ∧ c ≠ 0 ∧ c ≠ 10 := by
  intro c hc
  simp only [Rule.text, List.mem_append, List.mem_cons, List.mem_singleton, List.not_mem_nil,
    or_false] at hc
  rcases hc with hc | hc | hc | hc
  · exact decimal_chars _ c hc
  · subst hc; decide
  · exact decimal_chars _ c hc
  · subst hc; exact ⟨ha.2.2.2.1, ha.2.1, ha.2.2.1⟩

theorem rule_text_ne_nil (r : Rule) : r.text ≠ [] := by
  simp [Rule.text]

theorem tokens_fold (states : Int) (hstates : states ≤ 2147483647) (row : Int)
    (hrow : 0 ≤ row ∧ row < states) :
    ∀ (rs : List Rule), (∀ r ∈ rs, r.wellFormed states) →
      ∀ (w : List Nat), (∀ c ∈ w, c ≠ 32) → w ≠ [] →
      ∃ junk toks, strtokAll (w ++ rulesText rs) = (w ++ junk) :: toks ∧
        (junk = [] ∨ junk = [10]) ∧
        ∀ st : BuilderState, st.row = row →
          ∃ st1, toks.foldlM (ruleToken states) st = some st1 ∧ st1.row = row ∧
            st1.matrix = rs.foldl (fun (m : Matrix) r => m.set row r.class_ r.entry) st.matrix ∧
            st1.written = st.written ++ rs.map (fun r => (row, (r.class_ : Int))) := by
  intro rs
  induction rs with
  | nil =>
    intro _ w hw hne
    refine ⟨[10], [], ?_, Or.inr rfl, fun st hst => ⟨st, by simp, hst, by simp, by simp⟩⟩
    simp only [rulesText]
    apply strtokAll_no_space
    · intro c hc
      rw [List.mem_append, List.mem_singleton] at hc
      rcases hc with hc | hc
      · exact hw c hc
      · omega
    · simp
  | cons r rs ih =>
    intro hwf w hw hne
    have hr := hwf r (List.mem_cons_self _ _)
    obtain ⟨junk1, toks1, htok, hjunk, hfold⟩ :=
      ih (fun r1 h1 => hwf r1 (List.mem_cons_of_mem _ h1)) r.text
        (fun c hc => (rule_text_chars r hr.2.2 c hc).1) (rule_text_ne_nil r)
    refine ⟨[], (r.text ++ junk1) :: toks1, ?_, Or.inl rfl, fun st hst => ?_⟩
    · simp only [rulesText, List.append_nil]
      rw [strtokAll_append_space w _ hw hne, htok]
    · obtain ⟨st2, h2, h2row, h2m, h2w⟩ :=
        ruleToken_rule states r junk1 st hstates hr (by rw [hst]; exact hrow)
      obtain ⟨st3, h3, h3row, h3m, h3w⟩ := hfold st2 (by rw [h2row, hst])
      refine ⟨st3, ?_, h3row, ?_, ?_⟩
      · simp only [List.foldlM_cons, h2]
        exact h3
      · rw [h3m, h2m, hst]; rfl
      · rw [h3w, h2w, hst]; simp

theorem rulesText_body (rs : List Rule) (hwf : ∀ r ∈ rs, actionCharOk r.actionChar) :
    ∃ body, rulesText rs = body ++ [10] ∧ ∀ c ∈ body, c ≠ 10 ∧ c ≠ 0 := by
  induction rs with
  | nil => exact ⟨[], rfl, by simp⟩
  | cons r rs ih =>
    obtain ⟨body, hb, hc⟩ := ih (fun r1 h1 => hwf r1 (List.mem_cons_of_mem _ h1))
    refine ⟨32 :: (r.text ++ body), by simp [rulesText, hb], ?_⟩
    intro c hcm
    simp only [List.mem_cons, List.mem_append] at hcm
    rcases hcm with hcm | hcm | hcm
    · omega
    · have := rule_text_chars r (hwf r (List.mem_cons_self _ _)) c hcm
      omega
    · exact hc c hcm

theorem line_text_body (states : Int) (l : RuleLine) (hwf : l.wellFormed states) :
    ∃ body, l.text = body ++ [10] ∧ body ≠ [] ∧ ∀ c ∈ body, c ≠ 10 ∧ c ≠ 0 := by
  obtain ⟨body, hb, hc⟩ := rulesText_body l.rules (fun r hr => (hwf.2 r hr).2.2)
  refine ⟨decimal l.row ++ body, by simp [RuleLine.text, hb], ?_, ?_⟩
  · simp [(decimal_spec l.row).2.1]
  · intro c hcm
    rw [List.mem_append] at hcm
    rcases hcm with hcm | hcm
    · have := decimal_chars _ c hcm
      omega
    · exact hc c hcm

theorem strOf_eq_self (s : List Nat) (h : ∀ c ∈ s, c ≠ 0) : strOf s = s := by
  unfold strOf
  rw [List.takeWhile_eq_self_iff]
  intro c hc
  simpa using h c hc

theorem readLine_ruleLine (states : Int) (hstates : states ≤ 2147483647) (l : RuleLine)
    (hwf : l.wellFormed states) (st : BuilderState) :
    ∃ st1, readLine states st l.text = some st1 ∧
      st1.matrix = l.rules.foldl (fun (m : Matrix) r => m.set l.row r.class_ r.entry) st.matrix ∧
      st1.written = st.written ++ l.rules.map (fun r => ((l.row : Int), (r.class_ : Int))) := by
  obtain ⟨body, hb, hne, hc⟩ := line_text_body states l hwf
  have hstr : strOf l.text = l.text := by
    apply strOf_eq_self
    intro c hcm
    rw [hb, List.mem_append, List.mem_singleton] at hcm
    rcases hcm with hcm | hcm
    · exact (hc c hcm).2
    · omega
  have hlen : l.text.length ≠ 1 := by
    rw [hb, List.length_append, List.length_singleton]
    have : body.length ≠ 0 := by
      intro h0
      exact hne (List.length_eq_zero.mp h0)
    omega
  obtain ⟨junk, toks, htok, hjunk, hfold⟩ :=
    tokens_fold states hstates l.row ⟨by omega, hwf.1⟩ l.rules hwf.2 (decimal l.row)
      (fun c hcm => (decimal_chars _ c hcm).1) (decimal_spec l.row).2.1
  have hatoi : atoi (decimal l.row ++ junk) = some (l.row : Int) := by
    apply atoi_decimal
    · intro d hd
      rcases hjunk with rfl | rfl
      · simp at hd
      · simp at hd; subst hd; decide
    · have := hwf.1
      omega
  obtain ⟨st1, h1, _, h1m, h1w⟩ := hfold { st with row := l.row } rfl
  refine ⟨st1, ?_, h1m, h1w⟩
  unfold readLine
  rw [hstr, if_neg hlen]
  show (match strtokAll (decimal l.row ++ rulesText l.rules) with
    | [] => none
    | token :: tokens =>
      match atoi token with
      | none => none
      | some row => tokens.foldlM (ruleToken states) { st with row := row }) = some st1
  rw [htok]
  simp only [hatoi]
  exact h1

/-! ### Reading a well-formed description -/

theorem fgets_line (body rest : List Nat) (hbody : ∀ c ∈ body, c ≠ 10) :
    ∀ room, body.length < room → fgets room (body ++ 10 :: rest) = (body ++ [10], rest) := by
  induction body with
  | nil =>
    intro room h
    cases room with
    | zero => simp at h
    | succ room => simp [fgets]
  | cons b body ih =>
    intro room h
    cases room with
    | zero => simp at h
    | succ room =>
      have hb : b ≠ 10 := hbody b (List.mem_cons_self _ _)
      have := ih (fun c hc => hbody c (List.mem_cons_of_mem _ hc)) room
        (by simp at h; omega)
      simp [fgets, hb, this]

theorem readLines_step (states : Int) (fuel : Nat) (fp : List Nat) (st : BuilderState)
    (hfp : fp ≠ []) :
    readLines states (fuel + 1) fp st =
      (readLine states st (fgets 255 fp).1).bind
        (fun st1 => readLines states fuel (fgets 255 fp).2 st1) := by
  cases fp with
  | nil => exact absurd rfl hfp
  | cons b fp =>
    simp only [readLines]
    cases readLine states st (fgets 255 (b :: fp)).1 <;> rfl

theorem readLines_nil (states : Int) (fuel : Nat) (st : BuilderState) :
    readLines states fuel [] st = some st := by
  cases fuel <;> rfl

theorem readLines_description (states : Int) (hstates : states ≤ 2147483647) :
    ∀ (lines : List (Option RuleLine)),
      (∀ l, some l ∈ lines → l.wellFormed states ∧ l.text.length ≤ 255) →
      ∀ (fuel : Nat), lines.length ≤ fuel → ∀ st : BuilderState,
      ∃ st1, readLines states fuel (descriptionText lines) st = some st1 ∧
        st1.matrix = (rulesOf lines).foldl
          (fun (m : Matrix) p => m.set p.1 p.2.class_ p.2.entry) st.matrix ∧
        st1.written = st.written ++ (rulesOf lines).map (fun p => ((p.1 : Int), (p.2.class_ : Int))) := by
  intro lines
  induction lines with
  | nil =>
    intro _ fuel _ st
    exact ⟨st, readLines_nil _ _ _, rfl, by simp [rulesOf]⟩
  | cons item ls ih =>
    intro hwf fuel hfuel st
    have hwf1 : ∀ l, some l ∈ ls → l.wellFormed states ∧ l.text.length ≤ 255 :=
      fun l hl => hwf l (List.mem_cons_of_mem _ hl)
    cases fuel with
    | zero => simp at hfuel
    | succ fuel =>
      have hfuel1 : ls.length ≤ fuel := by simp at hfuel; omega
      cases item with
      | none =>
        obtain ⟨st1, h1, h1m, h1w⟩ := ih hwf1 fuel hfuel1 st
        refine ⟨st1, ?_, h1m, h1w⟩
        simp only [descriptionText]
        rw [readLines_step _ _ _ _ (by simp)]
        have hf : fgets 255 (10 :: descriptionText ls) = ([10], descriptionText ls) := by
          simp [fgets]
        rw [hf]
        have hr : readLine states st [10] = some st := by
          simp [readLine, strOf]
        simp only [hr, Option.bind_some]
        exact h1
      | some l =>
        obtain ⟨hl, hlen⟩ := hwf l (List.mem_cons_self _ _)
        obtain ⟨body, hb, hne, hc⟩ := line_text_body states l hl
        obtain ⟨st1, h1, h1m, h1w⟩ := readLine_ruleLine states hstates l hl st
        obtain ⟨st2, h2, h2m, h2w⟩ := ih hwf1 fuel hfuel1 st1
        refine ⟨st2, ?_, ?_, ?_⟩
        · simp only [descriptionText]
          have hne1 : l.text ++ descriptionText ls ≠ [] := by
            rw [hb]; simp
          rw [readLines_step _ _ _ _ hne1]
          have hf : fgets 255 (l.text ++ descriptionText ls) = (l.text, descriptionText ls) := by
            rw [hb, List.append_assoc, List.singleton_append]
            apply fgets_line _ _ (fun c hcm => (hc c hcm).1)
            rw [hb, List.length_append, List.length_singleton] at hlen
            omega
          rw [hf]
          simp only [h1, Option.bind_some]
          exact h2
        · rw [h2m, h1m]
          simp only [rulesOf, List.foldl_append, List.foldl_map]
        · rw [h2w, h1w]
          simp only [rulesOf, List.map_append, List.map_map, List.append_assoc]
          rfl

theorem description_length (lines : List (Option RuleLine)) :
    lines.length ≤ (descriptionText lines).length := by
  induction lines with
  | nil => simp
  | cons item ls ih =>
    cases item with
    | none => simp [descriptionText]; omega
    | some l =>
      have : 1 ≤ l.text.length := by
        simp [RuleLine.text]
        have := (decimal_spec l.row).2.1
        have : (decimal l.row).length ≠ 0 := fun h => this (List.length_eq_zero.mp h)
        omega
      simp [descriptionText]
      omega

/-! ### The last rule for a cell -/

theorem lastRule_append (rs : List (Nat × Rule)) (p : Nat × Rule) (row cls : Nat) :
    lastRule (rs ++ [p]) row cls =
      if p.1 = row ∧ p.2.class_ = cls then some p.2 else lastRule rs row cls := by
  unfold lastRule
  rw [List.filter_append]
  by_cases h : p.1 = row ∧ p.2.class_ = cls
  · simp [h, List.filter_cons]
  · simp [h, List.filter_cons]

theorem lastRule_class {rs : List (Nat × Rule)} {row cls : Nat} {r : Rule}
    (h : lastRule rs row cls = some r) : r.class_ = cls := by
  unfold lastRule at h
  simp only [Option.map_eq_some'] at h
  obtain ⟨p, hp, rfl⟩ := h
  have := List.mem_of_getLast?_eq_some hp
  simp only [List.mem_filter, decide_eq_true_eq] at this
  exact this.2.2

theorem foldl_rules_apply (rs : List (Nat × Rule)) (m0 : Matrix) (row cls : Nat) :
    (rs.foldl (fun (m : Matrix) p => m.set p.1 p.2.class_ p.2.entry) m0) row cls =
      match lastRule rs row cls with
      | some r => r.entry
      | none => m0 row cls := by
  induction rs using List.reverseRecOn with
  | nil => simp [lastRule]
  | append_singleton rs p ih =>
    rw [List.foldl_append, lastRule_append]
    simp only [List.foldl_cons, List.foldl_nil, Matrix.set_apply]
    by_cases h : p.1 = row ∧ p.2.class_ = cls
    · have h1 : (row : Int) = (p.1 : Int) ∧ (cls : Int) = (p.2.class_ : Int) := by
        constructor <;> simp [h.1, h.2]
      rw [if_pos h1, if_pos h]
    · have h1 : ¬ ((row : Int) = (p.1 : Int) ∧ (cls : Int) = (p.2.class_ : Int)) := by
        intro h2
        apply h
        constructor
        · exact_mod_cast h2.1.symm
        · exact_mod_cast h2.2.symm
      rw [if_neg h1, if_neg h, ih]

/-- C4 (amended): last write wins.  For every description made of blank
lines and well-formed lines of at most 255 characters (newline included),
with rows in `[0, states)`, classes in `[0, 12)` and destinations that are a
state index or 99, `matrixBuilder` returns a matrix whose entry at
`[row][class]` is `(class, nextState, actionChar)` of the last rule of the
description for that cell, also when the rules of a row are spread over
several lines. -/
theorem last_rule_wins (states : Int) (hstates : states ≤ 2147483647)
    (lines : List (Option RuleLine))
    (hwf : ∀ l, some l ∈ lines → l.wellFormed states)
    (hlen : ∀ l, some l ∈ lines → l.text.length ≤ 255)
    (garbage : Matrix) :
    ∃ table, matrixBuilder states (descriptionText lines) garbage = some table ∧
      ∀ (row class_ : Nat) (r : Rule), lastRule (rulesOf lines) row class_ = some r →
        table row class_ =
          { class_ := class_, end_ := r.nextState, action := toChar r.actionChar } := by
  obtain ⟨st1, h1, h1m, _⟩ := readLines_description states hstates lines
    (fun l hl => ⟨hwf l hl, hlen l hl⟩) (descriptionText lines).length
    (description_length lines)
    { row := 0, col := 0, target := 0, slash := 0, action := 0,
      matrix := markUnset states garbage, written := [] }
  refine ⟨fillDefaults states st1.matrix, ?_, ?_⟩
  · simp [matrixBuilder, matrixBuilderRun, h1]
  · intro row cls r hr
    have hcell : st1.matrix row cls = r.entry := by
      rw [h1m, foldl_rules_apply, hr]
    have hend : (st1.matrix row cls).end_ ≠ -1 := by
      rw [hcell]
      simp only [Rule.entry]
      omega
    rw [fillDefaults_apply, if_neg (fun h => hend h.2), hcell]
    simp only [Rule.entry, lastRule_class hr]

/-- Witness of C4: a description with a blank line whose row 0 is spread
over two lines. -/
theorem last_rule_wins_witness :
    ∃ table, matrixBuilder 3 (descriptionText splitRowLines) zeroMatrix = some table ∧
      ∀ (row class_ : Nat) (r : Rule), lastRule (rulesOf splitRowLines) row class_ = some r →
        table row class_ =
          { class_ := class_, end_ := r.nextState, action := toChar r.actionChar } :=
  last_rule_wins 3 (by decide) splitRowLines
    (by
      intro l hl
      simp only [splitRowLines, List.mem_cons, Option.some.injEq, List.mem_nil_iff,
        or_false, reduceCtorEq, false_or] at hl
      rcases hl with rfl | rfl | rfl <;> decide)
    (by
      intro l hl
      simp only [splitRowLines, List.mem_cons, Option.some.injEq, List.mem_nil_iff,
        or_false, reduceCtorEq, false_or] at hl
      rcases hl with rfl | rfl | rfl <;> decide)
    zeroMatrix

set_option maxRecDepth 100000 in
/-- Counterexample to C4 as stated: `longLine` is a well-formed line of 260
characters with row 0; its last rule sets the cell (0, 3) to (3, 2, 'd'), but
`fgets(buf, 256, fp)` cuts the line before that rule and the built matrix
holds the default entry (3, 99, 'd') there. -/
theorem long_line_counterexample :
    longLine.wellFormed 3 ∧ longLine.text.length = 260 ∧
    lastRule (rulesOf [some longLine]) 0 3
      = some { class_ := 3, nextState := 2, actionChar := 100 } ∧
    (matrixBuilder 3 (descriptionText [some longLine]) zeroMatrix).map (fun table => table 0 3)
      = some { class_ := 3, end_ := 99, action := 100 } := by
  decide!

/-! ### The rows and columns of the lookups -/

theorem classification_range (c : Int) :
    0 ≤ classification c ∧ classification c ≤ 12 ∧ (classification c = 12 → c = 0) := by
  have h := classification_cases c _ rfl
  generalize classification c = k at h
  rcases h with h | h | h | h | h | h | h | h | h | h | h | h | h <;> omega

theorem scanLoop_running_row {M : Matrix} {states : Int} (accept : Int)
    (hdest : destinationsValid M states) (k : Nat) :
    ∀ (st st1 : ScanState) (s s1 : List Nat), (0 ≤ st.current ∧ st.current < states) →
      scanLoop M states accept k st s = .running st1 s1 →
      (0 ≤ st1.current ∧ st1.current < states) ∧ (st.current ≠ 99 → st1.current ≠ 99) ∧
        ∃ j, s1 = s.drop j := by
  induction k with
  | zero =>
    intro st st1 s s1 hrow h
    by_cases hc : st.current = accept
    · simp [scanLoop, hc] at h
    · simp [scanLoop, hc] at h
      obtain ⟨rfl, rfl⟩ := h
      exact ⟨hrow, fun h => h, 0, rfl⟩
  | succ k ih =>
    intro st st1 s s1 hrow h
    by_cases hc : st.current = accept
    · simp [scanLoop_accept _ _ _ _ _ _ hc] at h
    · rw [scanLoop_succ _ _ _ _ _ _ hc] at h
      cases hb : scanBody M states accept st s with
      | fault f => simp [hb, Config.andThen] at h
      | done st2 s2 => simp [hb, Config.andThen] at h
      | running st2 s2 =>
        simp [hb, Config.andThen] at h
        obtain ⟨hin, hs2, _, hcur, _, _, h99, _⟩ := scanBody_running hb
        have hrow2 : 0 ≤ st2.current ∧ st2.current < states := by
          rcases hdest _ _ hin with hv | hv
          · rw [hcur]; exact hv
          · rw [hcur] at h99; exact absurd hv h99
        obtain ⟨h1, _, j, hj⟩ := ih st2 st1 s2 s1 hrow2 h
        refine ⟨h1, fun _ => ?_, j + 1, ?_⟩
        · by_cases hk : st1.current = 99
          · exfalso
            -- the state after a completed iteration is never 99
            have := (ih st2 st1 s2 s1 hrow2 h).2.1 h99
            exact this hk
          · exact hk
        · rw [hj, hs2, getchar_snd, List.drop_drop]
          congr 1
          omega

theorem next_class_in_range {stdin : List Nat}
    (hchars : ∀ b ∈ stdin, classification (toChar ((b % 256 : Nat) : Int)) < 12)
    (j : Nat) :
    0 ≤ classification (toChar (getchar (stdin.drop j)).1) ∧
      classification (toChar (getchar (stdin.drop j)).1) < 12 := by
  refine ⟨(classification_range _).1, ?_⟩
  cases hd : stdin.drop j with
  | nil => decide
  | cons b rest =>
    have hb : b ∈ stdin := List.mem_of_mem_drop (by rw [hd]; exact List.mem_cons_self _ _)
    exact hchars b hb

theorem exampleTable_destinationsValid (states : Int) (h : 3 ≤ states) :
    destinationsValid exampleTable states := by
  intro i x _
  unfold exampleTable
  split_ifs <;> simp <;> omega

/-- C19 (amended): the lookups of the scan loop are inside the matrix.  For
a table with `0 ≤ initial_state < states` whose entries inside the matrix
have a destination in `[0, states)` or 99, and a standard input whose bytes
all classify into 0..11, the lookup `matrix[current][class]` that a call of
`scanner` performs after any number `k` of completed iterations has
`0 ≤ current < states` and `0 ≤ class < 12`; when `initial_state` is not 99,
the row of the lookup is not 99. -/
theorem lookups_in_bounds (matrix : Matrix) (states initial_state accept_state : Int)
    (stdin : List Nat)
    (hstart : 0 ≤ initial_state ∧ initial_state < states)
    (hdest : destinationsValid matrix states)
    (hchars : ∀ b ∈ stdin, 0 ≤ classification (toChar ((b % 256 : Nat) : Int)) ∧
      classification (toChar ((b % 256 : Nat) : Int)) < 12)
    (k : Nat) (st : ScanState) (s : List Nat)
    (hrun : scanLoop matrix states accept_state k (initialState initial_state) stdin
      = .running st s) :
    (0 ≤ st.current ∧ st.current < states) ∧
    (0 ≤ classification (toChar (getchar s).1) ∧ classification (toChar (getchar s).1) < 12) ∧
    (initial_state ≠ 99 → st.current ≠ 99) := by
  obtain ⟨h1, h2, j, hj⟩ := scanLoop_running_row accept_state hdest k _ _ _ _
    (by simpa [initialState] using hstart) hrun
  refine ⟨h1, ?_, fun h => h2 (by simpa [initialState] using h)⟩
  rw [hj]
  exact next_class_in_range (fun b hb => (hchars b hb).2) j

/-- Witness of C19: the lookup of the third iteration of the first call of
the end-to-end example, in state 1 on the character `'c'`. -/
theorem lookups_in_bounds_witness :
    (0 ≤ (1 : Int) ∧ (1 : Int) < 3) ∧
    (0 ≤ classification (toChar (getchar (bytes "c def")).1) ∧
      classification (toChar (getchar (bytes "c def")).1) < 12) ∧
    ((0 : Int) ≠ 99 → (1 : Int) ≠ 99) :=
  lookups_in_bounds exampleTable 3 0 2 (bytes "abc def") (by decide)
    (exampleTable_destinationsValid 3 (by decide))
    (by decide) 2
    { c := 98, current := 1, recognize := 0, buffer := [97, 98], printed := [0, 1, 1] }
    (bytes "c def") (by decide)

/-- Counterexample to C19 as stated: with 100 states the example table has
valid destinations and 99 is a start state with `0 ≤ 99 < 100`; the call
starts in state 99 and its first lookup reads row 99 (it prints 99, reads the
default cell (99, 2) and ends in the dead state). -/
theorem row_99_counterexample :
    destinationsValid exampleTable 100 ∧ (0 ≤ (99 : Int) ∧ (99 : Int) < 100) ∧
    scanLoop exampleTable 100 2 0 (initialState 99) (bytes "a")
      = .running (initialState 99) (bytes "a") ∧
    (initialState 99).current = 99 ∧
    scanner 1 exampleTable 100 99 2 (bytes "a")
      = some (.returns { outcome := .endOfStream, printed := [99, 99], stdin := [] }) :=
  ⟨exampleTable_destinationsValid 100 (by decide), by decide, by decide, rfl, by decide⟩

/-! ### Termination of a call -/

/-- When every cell of the end-of-stream column leads to the accept state or
to the dead state, the loop has ended after one iteration more than standard
input has bytes. -/
theorem scanLoop_ends {M : Matrix} {states accept : Int}
    (hdest : destinationsValid M states)
    (heof : ∀ i, 0 ≤ i → i < states → (M i 10).end_ = accept ∨ (M i 10).end_ = 99) :
    ∀ (s : List Nat) (st : ScanState), (0 ≤ st.current ∧ st.current < states) →
      ∀ st1 s1, scanLoop M states accept (s.length + 1) st s ≠ .running st1 s1 := by
  intro s
  induction s with
  | nil =>
    intro st hrow st1 s1 h
    by_cases hc : st.current = accept
    · simp [scanLoop_accept _ _ _ _ _ _ hc] at h
    · simp only [List.length_nil, Nat.zero_add] at h
      rw [scanLoop_succ _ _ _ _ _ _ hc] at h
      cases hb : scanBody M states accept st [] with
      | fault f => simp [hb, Config.andThen] at h
      | done st2 s2 => simp [hb, Config.andThen] at h
      | running st2 s2 =>
        simp only [hb, Config.andThen] at h
        obtain ⟨_, _, _, hcur, _, _, h99, _⟩ := scanBody_running hb
        have h10 : classification (toChar (getchar []).1) = 10 := by decide
        rw [h10] at hcur
        have hacc : st2.current = accept := by
          rcases heof st.current hrow.1 hrow.2 with hv | hv
          · rw [hcur]; exact hv
          · rw [hcur] at h99; exact absurd hv h99
        simp [scanLoop_accept _ _ _ _ _ _ hacc] at h
  | cons b rest ih =>
    intro st hrow st1 s1 h
    by_cases hc : st.current = accept
    · simp [scanLoop_accept _ _ _ _ _ _ hc] at h
    · simp only [List.length_cons] at h
      rw [scanLoop_succ _ _ _ _ _ _ hc] at h
      cases hb : scanBody M states accept st (b :: rest) with
      | fault f => simp [hb, Config.andThen] at h
      | done st2 s2 => simp [hb, Config.andThen] at h
      | running st2 s2 =>
        simp only [hb, Config.andThen] at h
        obtain ⟨hin, hs2, _, hcur, _, _, h99, _⟩ := scanBody_running hb
        have hrow2 : 0 ≤ st2.current ∧ st2.current < states := by
          rcases hdest _ _ hin with hv | hv
          · rw [hcur]; exact hv
          · rw [hcur] at h99; exact absurd hv h99
        have hs : s2 = rest := by rw [hs2]; rfl
        subst hs
        exact ih st2 hrow2 st1 s1 h

/-- A fault of the loop: an index outside the matrix in a state reached by
the loop, or a write past the buffer. -/
theorem scanLoop_fault_row {M : Matrix} {states : Int} (accept : Int) (k : Nat) :
    ∀ (st : ScanState) (s : List Nat) (f : Fault),
      scanLoop M states accept k st s = .fault f →
      (∃ count, f = .bufferIndex count) ∨
      ∃ j st1 s1, j < k ∧ scanLoop M states accept j st s = .running st1 s1 ∧
        ¬ inBounds states st1.current (classification (toChar (getchar s1).1)) := by
  induction k with
  | zero =>
    intro st s f h
    by_cases hc : st.current = accept <;> simp [scanLoop, hc] at h
  | succ k ih =>
    intro st s f h
    by_cases hc : st.current = accept
    · simp [scanLoop_accept _ _ _ _ _ _ hc] at h
    · rw [scanLoop_succ _ _ _ _ _ _ hc] at h
      cases hb : scanBody M states accept st s with
      | fault f1 =>
        simp only [hb, Config.andThen] at h
        injection h with h
        subst h
        rcases scanBody_fault hb with ⟨h1, _⟩ | ⟨_, _, h3⟩
        · exact Or.inr ⟨0, st, s, by omega, scanLoop_zero_running _ _ _ _ _ hc, h1⟩
        · exact Or.inl ⟨_, h3⟩
      | done st2 s2 => simp [hb, Config.andThen] at h
      | running st2 s2 =>
        simp only [hb, Config.andThen] at h
        rcases ih st2 s2 f h with h1 | ⟨j, st1, s1, hj, hrun, hout⟩
        · exact Or.inl h1
        · refine Or.inr ⟨j + 1, st1, s1, by omega, ?_, hout⟩
          rw [scanLoop_succ _ _ _ _ _ _ hc, hb]
          exact hrun

/-- C15 (amended): a call of `scanner` ends.  For a table with
`0 ≤ initial_state < states` whose entries have a destination in
`[0, states)` or 99 and whose end-of-stream column (class 10) leads from
every state to the accept state or to the dead state, and a standard input
whose bytes classify into 0..11 and on which the call writes nothing past
`buffer[99]`, the call returns within one loop iteration more than the
input has bytes, with one result whose outcome is a recognized lexeme, a
rejection or the end of the stream. -/
theorem scanner_terminates (matrix : Matrix) (states initial_state accept_state : Int)
    (stdin : List Nat)
    (hstart : 0 ≤ initial_state ∧ initial_state < states)
    (hdest : destinationsValid matrix states)
    (heof : ∀ i, 0 ≤ i → i < states →
      (matrix i 10).end_ = accept_state ∨ (matrix i 10).end_ = 99)
    (hchars : ∀ b ∈ stdin, classification (toChar ((b % 256 : Nat) : Int)) < 12)
    (hbuffer : ∀ n count,
      scanner n matrix states initial_state accept_state stdin
        ≠ some (.faults (.bufferIndex count))) :
    ∃ r, (∀ n, scanner (stdin.length + 1 + n) matrix states initial_state accept_state stdin
        = some (.returns r)) ∧
      ((∃ lexeme, r.outcome = .recognized lexeme) ∨ r.outcome = .rejected ∨
        r.outcome = .endOfStream) := by
  have hrow0 : 0 ≤ (initialState initial_state).current ∧
      (initialState initial_state).current < states := by
    simpa [initialState] using hstart
  have hend := scanLoop_ends hdest heof stdin (initialState initial_state) hrow0
  have hb := hbuffer (stdin.length + 1)
  cases hl : scanLoop matrix states accept_state (stdin.length + 1)
      (initialState initial_state) stdin with
  | running st1 s1 => exact absurd hl (hend st1 s1)
  | fault f =>
    exfalso
    rcases scanLoop_fault_row accept_state _ _ _ _ hl with ⟨count, hf⟩ | ⟨j, st1, s1, _, hrun, hout⟩
    · apply hb count
      simp [scanner, hl, hf]
    · obtain ⟨h1, _, i, hi⟩ := scanLoop_running_row accept_state hdest j _ _ _ _ hrow0 hrun
      have h2 := next_class_in_range hchars i
      rw [← hi] at h2
      exact hout ⟨h1.1, h1.2, h2.1, h2.2⟩
  | done st1 s1 =>
    refine ⟨{ outcome := report st1, printed := st1.printed, stdin := s1 }, fun n => ?_, ?_⟩
    · apply scanner_mono
      simp [scanner, hl]
    · show (∃ lexeme, report st1 = .recognized lexeme) ∨ report st1 = .rejected ∨
        report st1 = .endOfStream
      cases report st1 with
      | recognized lexeme => exact Or.inl ⟨lexeme, rfl⟩
      | rejected => exact Or.inr (Or.inl rfl)
      | endOfStream => exact Or.inr (Or.inr rfl)

/-- Witness of C15: the first call of the end-to-end example. -/
theorem scanner_terminates_witness :
    ∃ r, (∀ n, scanner ((bytes "abc def").length + 1 + n) exampleTable 3 0 2 (bytes "abc def")
        = some (.returns r)) ∧
      ((∃ lexeme, r.outcome = .recognized lexeme) ∨ r.outcome = .rejected ∨
        r.outcome = .endOfStream) :=
  scanner_terminates exampleTable 3 0 2 (bytes "abc def") (by decide)
    (exampleTable_destinationsValid 3 (by decide))
    (by
      intro i h0 h3
      have : i = 0 ∨ i = 1 ∨ i = 2 := by omega
      rcases this with rfl | rfl | rfl <;> decide)
    (by decide)
    (by
      intro n count h
      have h1 := scanner_mono _ _ _ _ n 4 _ _ h
      have h2 : scanner (4 + n) exampleTable 3 0 2 (bytes "abc def") =
          some (.returns { outcome := .recognized (chars "abc"), printed := [0, 1, 1, 1, 2],
                           stdin := bytes "def" }) :=
        scanner_mono _ _ _ _ 4 n _ _ (by decide)
      rw [Nat.add_comm, h2] at h1
      simp at h1)

theorem eofLoopTable_destinationsValid : destinationsValid eofLoopTable 3 := by
  intro i x _
  unfold eofLoopTable
  split_ifs <;> simp

/-- At the end of the stream, with a character in the buffer, the loop stays
in state 1 of `eofLoopTable`. -/
theorem eofLoopTable_runs (n : Nat) :
    ∀ st : ScanState, st.current = 1 → st.buffer ≠ [] →
      ∃ st1, scanLoop eofLoopTable 3 2 n st [] = .running st1 [] := by
  induction n with
  | zero =>
    intro st hc _
    exact ⟨st, scanLoop_zero_running _ _ _ _ _ (by rw [hc]; decide)⟩
  | succ n ih =>
    intro st hc hb
    have hcount : st.count ≠ 0 := by
      unfold ScanState.count
      exact fun h => hb (List.length_eq_zero.mp h)
    have hbody : scanBody eofLoopTable 3 2 st [] =
        .running { st with c := EOF, current := 1, printed := st.printed ++ [1] } [] := by
      have h10 : classification EOF = 10 := by decide
      have hE : toChar (getchar []).1 = EOF := by decide
      have hin : inBounds 3 1 10 := by decide
      unfold scanBody
      simp only [hE, h10]
      simp [hin, hcount, getchar, hc, eofLoopTable, EOF]
    rw [scanLoop_succ _ _ _ _ _ _ (by rw [hc]; decide), hbody]
    exact ih _ rfl hb

/-- Counterexample to C15 as stated: every destination of `eofLoopTable` is
a state index or 99, and on the input `"a"` the call shifts `'a'`, then reads
the end of the stream for ever in state 1: for no number of iterations does
it return or leave defined behaviour. -/
theorem eof_loop_counterexample :
    destinationsValid eofLoopTable 3 ∧
    ¬ ∃ n r, scanner n eofLoopTable 3 0 2 (bytes "a") = some r := by
  refine ⟨eofLoopTable_destinationsValid, ?_⟩
  rintro ⟨n, r, h⟩
  cases n with
  | zero => simp [scanner, scanLoop, initialState] at h
  | succ n =>
    have hfirst : scanBody eofLoopTable 3 2 (initialState 0) (bytes "a") =
        .running { c := 97, current := 1, recognize := 0, buffer := [97], printed := [0, 1] }
          [] := by decide
    obtain ⟨st1, h1⟩ := eofLoopTable_runs n
      { c := 97, current := 1, recognize := 0, buffer := [97], printed := [0, 1] } rfl
      (by simp)
    unfold scanner at h
    rw [scanLoop_succ _ _ _ _ _ _ (by decide), hfirst] at h
    simp only [Config.andThen] at h
    rw [h1] at h
    simp at h

/-! ### The outcome of a call that enters the dead state or the accept state -/

theorem recover_fst (stdin : List Nat) :
    (recoveryEnd stdin = none → (recover stdin).1 = EOF) ∧
    (∀ d, recoveryEnd stdin = some d → (recover stdin).1 = toChar ((d % 256 : Nat) : Int)) := by
  induction stdin with
  | nil => exact ⟨fun _ => rfl, fun d h => by simp [recoveryEnd] at h⟩
  | cons b rest ih =>
    have hd : isDelimiter b = (classification (toChar ((b % 256 : Nat) : Int)) == 10
        || classification (toChar ((b % 256 : Nat) : Int)) == 0
        || classification (toChar ((b % 256 : Nat) : Int)) == 1) := rfl
    have hr : recover (b :: rest) =
        if classification (toChar ((b % 256 : Nat) : Int)) ≠ 10 ∧
            classification (toChar ((b % 256 : Nat) : Int)) ≠ 0 ∧
            classification (toChar ((b % 256 : Nat) : Int)) ≠ 1 then recover rest
        else (toChar ((b % 256 : Nat) : Int), rest) := rfl
    have hs : recoveryEnd (b :: rest) =
        if isDelimiter b = true then some b else recoveryEnd rest := by
      unfold recoveryEnd
      rw [List.dropWhile_cons]
      by_cases h : isDelimiter b = true
      · simp [h]
      · simp [h]
    rw [hr, hs, hd]
    generalize classification (toChar ((b % 256 : Nat) : Int)) = k
    by_cases h : k ≠ 10 ∧ k ≠ 0 ∧ k ≠ 1
    · have h1 : ¬ ((k == 10 || k == 0 || k == 1) = true) := by
        simp only [Bool.or_eq_true, beq_iff_eq, not_or]
        tauto
      rw [if_pos h, if_neg h1]
      exact ih
    · have h1 : (k == 10 || k == 0 || k == 1) = true := by
        simp only [Bool.or_eq_true, beq_iff_eq]
        simp only [ne_eq, not_and_or, not_not] at h
        tauto
      rw [if_neg h, if_pos h1]
      refine ⟨fun h2 => by simp at h2, fun d h2 => ?_⟩
      simp only [Option.some.injEq] at h2
      subst h2
      rfl

/-- C13 (amended): the outcome of a call that enters the dead state.  When
the loop, after `k` iterations, looks up a cell inside the matrix whose
destination is 99, other than on the end of the stream with nothing shifted,
the call returns in that iteration, having printed 99 and consumed standard
input through the first delimiter after the character read.  It returns 1
(EndOfStream) when the stream is exhausted before recovery finds a
delimiter, however many characters were shifted, and is rejected when
recovery stops on a character that classifies as Whitespace or Newline. -/
theorem dead_state_outcome (matrix : Matrix) (states initial_state accept_state : Int)
    (stdin : List Nat) (k : Nat) (st : ScanState) (s : List Nat)
    (hrun : scanLoop matrix states accept_state k (initialState initial_state) stdin
      = .running st s)
    (hin : inBounds states st.current (classification (toChar (getchar s).1)))
    (hdead : (matrix st.current (classification (toChar (getchar s).1))).end_ = 99)
    (hne : ¬ (toChar (getchar s).1 = EOF ∧ st.count = 0)) :
    ∃ outcome,
      (∀ n, scanner (k + (n + 1)) matrix states initial_state accept_state stdin =
        some (.returns { outcome := outcome, printed := st.printed ++ [99],
                         stdin := skipToDelimiter (getchar s).2 })) ∧
      (recoveryEnd (getchar s).2 = none → outcome = .endOfStream) ∧
      (∀ d, recoveryEnd (getchar s).2 = some d →
        classification (toChar ((d % 256 : Nat) : Int)) ≠ 10 → outcome = .rejected) := by
  obtain ⟨hr, hc⟩ := scanLoop_running matrix states accept_state k _ _ _ _
    (by simp [initialState]) hrun
  have hbody : scanBody matrix states accept_state st s =
      .done { st with c := (recover (getchar s).2).1, current := 99,
                      printed := st.printed ++ [99] } (recover (getchar s).2).2 := by
    unfold scanBody
    simp only [hin, not_true_eq_false, if_false, hne, hdead, if_true]
  refine ⟨if (recover (getchar s).2).1 = EOF then .endOfStream else .rejected, fun n => ?_,
    fun h => ?_, fun d h hcls => ?_⟩
  · unfold scanner
    rw [scanLoop_add, hrun]
    simp only [Config.andThen]
    rw [scanLoop_succ _ _ _ _ _ _ hc, hbody]
    simp [Config.andThen, report, hr, recover_rest]
  · rw [if_pos ((recover_fst _).1 h)]
  · have hval := (recover_fst _).2 d h
    have hne1 : (recover (getchar s).2).1 ≠ EOF := by
      rw [hval]
      intro he
      apply hcls
      rw [he]
      decide
    rw [if_neg hne1]

/-- Witness of C13: on `"1bc "` the first iteration enters the dead state on
`'1'` and recovery stops on the space. -/
theorem dead_state_outcome_witness :
    ∃ outcome,
      (∀ n, scanner (0 + (n + 1)) exampleTable 3 0 2 (bytes "1bc ") =
        some (.returns { outcome := outcome, printed := [0] ++ [99],
                         stdin := skipToDelimiter (getchar (bytes "1bc ")).2 })) ∧
      (recoveryEnd (getchar (bytes "1bc ")).2 = none → outcome = .endOfStream) ∧
      (∀ d, recoveryEnd (getchar (bytes "1bc ")).2 = some d →
        classification (toChar ((d % 256 : Nat) : Int)) ≠ 10 → outcome = .rejected) :=
  dead_state_outcome exampleTable 3 0 2 (bytes "1bc ") 0 (initialState 0) (bytes "1bc ")
    (by decide) (by decide) (by decide) (by decide)

/-- Counterexample to C13 as stated: on `"ab1"` the call shifts two letters,
enters the dead state on `'1'`, recovery reads the end of the stream and the
call returns 1 (EndOfStream), not Rejected; so does the call on `"1bc"`,
where nothing was shifted and a character was consumed. -/
theorem recovery_to_end_of_stream_counterexample :
    scanner 3 exampleTable 3 0 2 (bytes "ab1") =
      some (.returns { outcome := .endOfStream, printed := [0, 1, 1, 99], stdin := [] }) ∧
    scanner 1 exampleTable 3 0 2 (bytes "1bc") =
      some (.returns { outcome := .endOfStream, printed := [0, 99], stdin := [] }) ∧
    Outcome.returnValue .endOfStream = 1 := by
  decide

/-- C14 (amended): the outcome of a call whose loop ends in the accept
state.  When an iteration of the loop, after `k` completed ones, moves to the
accept state, the call returns after it: with the recognized lexeme
accumulated so far when the transition taken is not a Shift, and rejected
when it is a Shift (with 1, EndOfStream, when the character shifted compares
equal to `EOF`).  When the start state is the accept state, the call reads
nothing and is rejected. -/
theorem accept_state_outcome (matrix : Matrix) (states initial_state accept_state : Int)
    (stdin : List Nat) (k : Nat) (st st1 : ScanState) (s s1 : List Nat)
    (hrun : scanLoop matrix states accept_state k (initialState initial_state) stdin
      = .running st s)
    (hbody : scanBody matrix states accept_state st s = .running st1 s1)
    (hacc : st1.current = accept_state) :
    (∀ n, scanner (k + 1 + n) matrix states initial_state accept_state stdin =
      some (.returns
        { outcome :=
            if (matrix st.current (classification (toChar (getchar s).1))).action = 115 then
              (if toChar (getchar s).1 = EOF then .endOfStream else .rejected)
            else .recognized (cString st.buffer),
          printed := st.printed ++ [accept_state],
          stdin := (getchar s).2 })) ∧
    (∀ n input, scanner n matrix states accept_state accept_state input =
      some (.returns { outcome := .rejected, printed := [accept_state], stdin := input })) := by
  obtain ⟨hr, hc⟩ := scanLoop_running matrix states accept_state k _ _ _ _
    (by simp [initialState]) hrun
  obtain ⟨_, hs1, hc1, _, hpr, _, _, hcase⟩ := scanBody_running hbody
  refine ⟨fun n => ?_, fun n input => ?_⟩
  · apply scanner_mono
    unfold scanner
    rw [scanLoop_add, hrun]
    simp only [Config.andThen]
    rw [scanLoop_succ _ _ _ _ _ _ hc, hbody]
    simp only [Config.andThen]
    rw [scanLoop_accept _ _ _ _ _ _ hacc]
    simp only [Option.some.injEq, CallResult.returns.injEq, ScanResult.mk.injEq]
    refine ⟨?_, by rw [hpr, hacc], hs1⟩
    rcases hcase with ⟨hact, _, _, hrec⟩ | ⟨hact, hbuf, ⟨_, hrec, _⟩ | ⟨hnacc, _⟩⟩
    · rw [if_pos hact]
      unfold report
      rw [if_neg (by rw [hrec]; exact hr), hc1]
    · rw [if_neg hact]
      unfold report
      rw [if_pos hrec, hbuf]
    · exact absurd hacc hnacc
  · unfold scanner
    rw [scanLoop_accept _ _ _ _ _ _ (by simp [initialState])]
    simp [report, initialState, EOF]

/-- Witness of C14: the fourth iteration of the first call of the end-to-end
example moves to the accept state 2 on the space. -/
theorem accept_state_outcome_witness :
    (∀ n, scanner (3 + 1 + n) exampleTable 3 0 2 (bytes "abc def") =
      some (.returns
        { outcome :=
            if (exampleTable 1 (classification (toChar (getchar (bytes " def")).1))).action
                = 115 then
              (if toChar (getchar (bytes " def")).1 = EOF then .endOfStream else .rejected)
            else .recognized (cString [97, 98, 99]),
          printed := [0, 1, 1, 1] ++ [2],
          stdin := (getchar (bytes " def")).2 })) ∧
    (∀ n input, scanner n exampleTable 3 2 2 input =
      some (.returns { outcome := .rejected, printed := [2], stdin := input })) :=
  accept_state_outcome exampleTable 3 0 2 (bytes "abc def") 3
    { c := 99, current := 1, recognize := 0, buffer := [97, 98, 99], printed := [0, 1, 1, 1] }
    { c := 32, current := 2, recognize := 1, buffer := [97, 98, 99],
      printed := [0, 1, 1, 1, 2] }
    (bytes " def") (bytes "def") (by decide) (by decide) rfl

/-- Counterexample to C14 as stated: with `shiftAcceptTable` the call on
`"a"` enters the accept state 1 by a Shift and is rejected; with the example
table and start state 2 = accept state the loop body never runs and the call
is rejected. -/
theorem accept_by_shift_counterexample :
    scanner 1 shiftAcceptTable 2 0 1 (bytes "a") =
      some (.returns { outcome := .rejected, printed := [0, 1], stdin := [] }) ∧
    (shiftAcceptTable 0 (classification (toChar 97))).action = 115 ∧
    scanner 0 exampleTable 3 2 2 (bytes "abc") =
      some (.returns { outcome := .rejected, printed := [2], stdin := bytes "abc" }) := by
  decide

/-- C17 (the code departs from the claim): the byte 255, stored in
`char c`, compares equal to `EOF` and classifies as 10; a call that reads it
first returns 1 with the rest of the stream unread.  Every other byte value
differs from `EOF` in `char c` and does not classify as 10. -/
theorem byte_255_is_taken_for_EOF :
    toChar (getchar [255]).1 = EOF ∧ classification (toChar (getchar [255]).1) = 10 ∧
    scanner 1 exampleTable 3 0 2 [255, 97] =
      some (.returns { outcome := .endOfStream, printed := [0, 99], stdin := [97] }) ∧
    (∀ b : Nat, b % 256 ≠ 255 →
      toChar ((b % 256 : Nat) : Int) ≠ EOF ∧
      classification (toChar ((b % 256 : Nat) : Int)) ≠ 10) := by
  refine ⟨by decide, by decide, by decide, fun b hb => ?_⟩
  have hne : toChar ((b % 256 : Nat) : Int) ≠ EOF := by
    unfold toChar EOF
    omega
  refine ⟨hne, fun h10 => hne ?_⟩
  have h := classification_cases _ _ h10
  unfold EOF
  omega

/-! ### What a description without validation builds -/

theorem mem_rulesOf (lines : List (Option RuleLine)) (p : Nat × Rule)
    (h : p ∈ rulesOf lines) : ∃ l, some l ∈ lines ∧ p.1 = l.row ∧ p.2 ∈ l.rules := by
  induction lines with
  | nil => simp [rulesOf] at h
  | cons item ls ih =>
    cases item with
    | none =>
      obtain ⟨l, hl, h1, h2⟩ := ih (by simpa [rulesOf] using h)
      exact ⟨l, List.mem_cons_of_mem _ hl, h1, h2⟩
    | some l0 =>
      simp only [rulesOf, List.mem_append, List.mem_map] at h
      rcases h with ⟨r, hr, rfl⟩ | h
      · exact ⟨l0, List.mem_cons_self _ _, rfl, hr⟩
      · obtain ⟨l, hl, h1, h2⟩ := ih h
        exact ⟨l, List.mem_cons_of_mem _ hl, h1, h2⟩

theorem lastRule_mem {rs : List (Nat × Rule)} {row cls : Nat} {r : Rule}
    (h : lastRule rs row cls = some r) : (row, r) ∈ rs := by
  unfold lastRule at h
  simp only [Option.map_eq_some'] at h
  obtain ⟨p, hp, rfl⟩ := h
  have := List.mem_of_getLast?_eq_some hp
  simp only [List.mem_filter, decide_eq_true_eq] at this
  obtain ⟨hmem, hrow, _⟩ := this
  rw [← hrow]
  exact hmem

/-- C11 (amended): `matrixBuilder` writes the rules of a description whose
rows and classes are in range inside the table.  For every description made
of blank lines and well-formed lines of at most 255 characters, with rows in
`[0, states)`, classes in `[0, 12)` and destinations in `[0, states)` or 99,
the build has defined behaviour, the cells assigned by lines 131-133 are, in
order, the cells (row, class) of the rules, and each of them is inside the
`states` x 12 table. -/
theorem rules_in_range_are_written_inside (states : Int) (hstates : states ≤ 2147483647)
    (lines : List (Option RuleLine))
    (hwf : ∀ l, some l ∈ lines → l.wellFormed states)
    (hlen : ∀ l, some l ∈ lines → l.text.length ≤ 255)
    (garbage : Matrix) :
    ∃ st, matrixBuilderRun states (descriptionText lines) garbage = some st ∧
      st.written = (rulesOf lines).map (fun p => ((p.1 : Int), (p.2.class_ : Int))) ∧
      ∀ p ∈ st.written, inBounds states p.1 p.2 := by
  obtain ⟨st1, h1, _, h1w⟩ := readLines_description states hstates lines
    (fun l hl => ⟨hwf l hl, hlen l hl⟩) (descriptionText lines).length
    (description_length lines)
    { row := 0, col := 0, target := 0, slash := 0, action := 0,
      matrix := markUnset states garbage, written := [] }
  simp only [List.nil_append] at h1w
  refine ⟨{ st1 with matrix := fillDefaults states st1.matrix }, ?_, h1w, ?_⟩
  · simp [matrixBuilderRun, h1]
  · intro p hp
    rw [show ({ st1 with matrix := fillDefaults states st1.matrix } : BuilderState).written
      = st1.written from rfl, h1w, List.mem_map] at hp
    obtain ⟨q, hq, rfl⟩ := hp
    obtain ⟨l, hl, hrow, hr⟩ := mem_rulesOf lines q hq
    obtain ⟨hl1, hl2⟩ := hwf l hl
    have hc := (hl2 q.2 hr).1
    rw [hrow]
    exact ⟨by omega, hl1, by omega, hc⟩

/-- Witness of C11: the description `splitRowLines`, with 3 states. -/
theorem rules_in_range_are_written_inside_witness :
    ∃ st, matrixBuilderRun 3 (descriptionText splitRowLines) zeroMatrix = some st ∧
      st.written = (rulesOf splitRowLines).map (fun p => ((p.1 : Int), (p.2.class_ : Int))) ∧
      ∀ p ∈ st.written, inBounds 3 p.1 p.2 :=
  rules_in_range_are_written_inside 3 (by decide) splitRowLines
    (by
      intro l hl
      simp only [splitRowLines, List.mem_cons, Option.some.injEq, List.mem_nil_iff,
        or_false, reduceCtorEq, false_or] at hl
      rcases hl with rfl | rfl | rfl <;> decide)
    (by
      intro l hl
      simp only [splitRowLines, List.mem_cons, Option.some.injEq, List.mem_nil_iff,
        or_false, reduceCtorEq, false_or] at hl
      rcases hl with rfl | rfl | rfl <;> decide)
    zeroMatrix

/-- Counterexample to C11 as stated: with 3 states, the line `"5 2/1s\n"`
has row 5; nothing is checked, lines 131-133 assign `matrix[5][2]`, outside
the table, and the build has no defined behaviour (no failure is reported:
the function returns `void`). -/
theorem out_of_range_rule_counterexample :
    strtokAll (bytes "5 2/1s\n") = [bytes "5", bytes "2/1s\n"] ∧
    atoi (bytes "5") = some 5 ∧
    assignedCell { builderStart (markUnset 3 zeroMatrix) with row := 5 } (bytes "2/1s\n")
      = some (5, 2) ∧
    ¬ inBounds 3 5 2 ∧
    (matrixBuilder 3 (bytes "5 2/1s\n") zeroMatrix).isNone = true := by
  decide

/-- C12 (amended): the destinations of the table built from a well-formed
description.  For every description made of blank lines and well-formed
lines of at most 255 characters, with rows in `[0, states)`, classes in
`[0, 12)` and destinations in `[0, states)` or 99, `matrixBuilder` returns a
table, and every entry inside it has a destination in `[0, states)` or 99. -/
theorem destinations_of_well_formed_description (states : Int)
    (hstates : states ≤ 2147483647) (lines : List (Option RuleLine))
    (hwf : ∀ l, some l ∈ lines → l.wellFormed states)
    (hlen : ∀ l, some l ∈ lines → l.text.length ≤ 255)
    (garbage : Matrix) :
    ∃ table, matrixBuilder states (descriptionText lines) garbage = some table ∧
      destinationsValid table states := by
  obtain ⟨st1, h1, h1m, _⟩ := readLines_description states hstates lines
    (fun l hl => ⟨hwf l hl, hlen l hl⟩) (descriptionText lines).length
    (description_length lines)
    { row := 0, col := 0, target := 0, slash := 0, action := 0,
      matrix := markUnset states garbage, written := [] }
  refine ⟨fillDefaults states st1.matrix, ?_, ?_⟩
  · simp [matrixBuilder, matrixBuilderRun, h1]
  · intro i x hin
    rw [fillDefaults_apply]
    by_cases hunset : (st1.matrix i x).end_ = -1
    · rw [if_pos ⟨hin, hunset⟩]
      exact Or.inr rfl
    · rw [if_neg (fun h => hunset h.2)]
      have hi0 : 0 ≤ i := hin.1
      have hx0 : 0 ≤ x := hin.2.2.1
      have hi : ((i.toNat : Nat) : Int) = i := Int.toNat_of_nonneg hi0
      have hx : ((x.toNat : Nat) : Int) = x := Int.toNat_of_nonneg hx0
      have hcell := foldl_rules_apply (rulesOf lines)
        (markUnset states garbage) i.toNat x.toNat
      rw [hi, hx] at hcell
      have hm : st1.matrix i x =
          ((rulesOf lines).foldl (fun (m : Matrix) p => m.set p.1 p.2.class_ p.2.entry)
            (markUnset states garbage)) i x := by rw [h1m]
      rw [hm, hcell]
      rw [hm, hcell] at hunset
      cases hlast : lastRule (rulesOf lines) i.toNat x.toNat with
      | none =>
        rw [hlast] at hunset
        simp only [markUnset_apply] at hunset
        exfalso
        apply hunset
        have hin2 : inBounds states i x := hin
        rw [if_pos hin2]
      | some r =>
        simp only [Rule.entry]
        obtain ⟨l, hl, _, hr⟩ := mem_rulesOf lines _ (lastRule_mem hlast)
        have hnext := ((hwf l hl).2 r hr).2.1
        rcases hnext with hn | hn
        · exact Or.inl ⟨by omega, hn⟩
        · exact Or.inr (by exact_mod_cast hn)

/-- Witness of C12: the description `splitRowLines`, with 3 states. -/
theorem destinations_of_well_formed_description_witness :
    ∃ table, matrixBuilder 3 (descriptionText splitRowLines) zeroMatrix = some table ∧
      destinationsValid table 3 :=
  destinations_of_well_formed_description 3 (by decide) splitRowLines
    (by
      intro l hl
      simp only [splitRowLines, List.mem_cons, Option.some.injEq, List.mem_nil_iff,
        or_false, reduceCtorEq, false_or] at hl
      rcases hl with rfl | rfl | rfl <;> decide)
    (by
      intro l hl
      simp only [splitRowLines, List.mem_cons, Option.some.injEq, List.mem_nil_iff,
        or_false, reduceCtorEq, false_or] at hl
      rcases hl with rfl | rfl | rfl <;> decide)
    zeroMatrix

/-- Counterexample to C12 as stated: with 3 states, the rule `2/50s` of row
0 is accepted; the table that `matrixBuilder` returns holds (2, 50, 's') in
the cell (0, 2), and 50 is neither a state index nor 99. -/
theorem unchecked_destination_counterexample :
    (matrixBuilder 3 (bytes "\n0 2/50s\n") zeroMatrix).map (fun table => table 0 2)
      = some { class_ := 2, end_ := 50, action := 115 } ∧
    inBounds 3 0 2 ∧ ¬ ((50 : Int) < 3) ∧ (50 : Int) ≠ 99 := by
  decide

/-! ### The header read by main -/

/-- C16 (amended): the dead state and the header.  When `main` has read a
header and built its matrix, the state count is positive; if moreover
`states ≤ 99` and start and accept are in `[0, states)`, then 99 is not a row
of the matrix and differs from start and from accept. -/
theorem dead_state_outside_small_tables (fp : List Nat) (garbage : Matrix) (h : Header)
    (hsetup : (mainSetup fp garbage).map (fun p => p.1) = some h)
    (hstates : h.states ≤ 99)
    (hstart : 0 ≤ h.start ∧ h.start < h.states)
    (haccept : 0 ≤ h.accept ∧ h.accept < h.states) :
    readHeader fp = some h ∧ 0 < h.states ∧
    (∀ x, ¬ inBounds h.states 99 x) ∧ h.start ≠ 99 ∧ h.accept ≠ 99 := by
  have hread : readHeader fp = some h ∧ 0 < h.states := by
    unfold mainSetup at hsetup
    cases hr : readHeader fp with
    | none => simp [hr] at hsetup
    | some h1 =>
      simp only [hr] at hsetup
      by_cases hpos : h1.states ≤ 0
      · simp [hpos] at hsetup
      · simp only [hpos, if_false, Option.map_map, Option.map_eq_some'] at hsetup
        obtain ⟨_, _, heq⟩ := hsetup
        simp only [Function.comp] at heq
        subst heq
        exact ⟨rfl, by omega⟩
  refine ⟨hread.1, hread.2, fun x hx => ?_, by omega, by omega⟩
  unfold inBounds at hx
  omega

/-- Witness of C16: the description file of the example table. -/
theorem dead_state_outside_small_tables_witness :
    readHeader exampleFile
      = some { states := 3, start := 0, accept := 2, rest := exampleDescription } ∧
    0 < (3 : Int) ∧
    (∀ x, ¬ inBounds 3 99 x) ∧ (0 : Int) ≠ 99 ∧ (2 : Int) ≠ 99 :=
  dead_state_outside_small_tables exampleFile zeroMatrix
    { states := 3, start := 0, accept := 2, rest := exampleDescription }
    (by decide) (by decide) (by decide) (by decide)

set_option maxRecDepth 100000 in
/-- Counterexample to C16 as stated: `main` reads the header
`states 100`, `start 0`, `accept 99` and builds a matrix in which 99 is a row
and is the accept state; it reads the header `states 3`, `start 99`,
`accept 2`, in which 99 is the start state. -/
theorem hundred_states_counterexample :
    (mainSetup hundredStatesFile zeroMatrix).map (fun p => p.1)
      = some { states := 100, start := 0, accept := 99, rest := bytes "\n0 2/99d\n" } ∧
    inBounds 100 99 0 ∧
    (mainSetup startIsDeadFile zeroMatrix).map (fun p => p.1)
      = some { states := 3, start := 99, accept := 2, rest := bytes "\n" } := by
  decide!

/-! ### Lines that carry no rule -/

/-- A blank line changes nothing. -/
theorem readLine_blank (states : Int) (st : BuilderState) :
    readLine states st (bytes "\n") = some st := by
  have : bytes "\n" = [10] := by decide
  rw [this]
  simp [readLine, strOf]

/-- A line that holds a row index and the newline changes no cell. -/
theorem readLine_row_only (states : Int) (st : BuilderState) (n : Nat)
    (hn : (n : Int) ≤ 2147483647) :
    ∃ st1, readLine states st (decimal n ++ [10]) = some st1 ∧
      st1.matrix = st.matrix ∧ st1.written = st.written := by
  have hchars : ∀ c ∈ decimal n ++ [10], c ≠ 32 ∧ c ≠ 0 := by
    intro c hc
    rw [List.mem_append, List.mem_singleton] at hc
    rcases hc with hc | hc
    · have := decimal_chars n c hc
      exact ⟨this.1, this.2.1⟩
    · omega
  have hne : decimal n ≠ [] := (decimal_spec n).2.1
  have hstr : strOf (decimal n ++ [10]) = decimal n ++ [10] :=
    strOf_eq_self _ (fun c hc => (hchars c hc).2)
  have hlen : (decimal n ++ [10]).length ≠ 1 := by
    rw [List.length_append, List.length_singleton]
    have : (decimal n).length ≠ 0 := fun h0 => hne (List.length_eq_zero.mp h0)
    omega
  have htok : strtokAll (decimal n ++ [10]) = [decimal n ++ [10]] :=
    strtokAll_no_space _ (fun c hc => (hchars c hc).1) (by simp)
  have hatoi : atoi (decimal n ++ [10]) = some (n : Int) :=
    atoi_decimal n [10] (by intro d hd; simp at hd; subst hd; decide) hn
  refine ⟨{ st with row := n }, ?_, rfl, rfl⟩
  unfold readLine
  rw [hstr, if_neg hlen, htok]
  simp only [hatoi]
  rfl

/-- C18 (the code departs from the claim): after the line `"0 2/1s\n"`
(the variables are then `afterFirstRule`), a blank line and the line `"1\n"`
leave the cell (1, 2) unset and assign no cell, but the line `"1 \n"`, a row
index, one space and the newline, is cut into the tokens `"1"` and `"\n"`
and lines 131-133 assign `matrix[1][2]` = (2, 1, 's') from the values that
`sscanf` left. -/
theorem line_without_rule_changes_a_cell :
    (readLines 3 7 (bytes "0 2/1s\n") (builderStart (markUnset 3 zeroMatrix))).map
        (fun st => (st.col, st.target, st.action, st.written))
      = some (afterFirstRule.col, afterFirstRule.target, afterFirstRule.action,
          afterFirstRule.written) ∧
    (readLines 3 7 (bytes "0 2/1s\n") (builderStart (markUnset 3 zeroMatrix))).map
        (fun st => (st.matrix 0 2, st.matrix 1 2))
      = some (afterFirstRule.matrix 0 2, afterFirstRule.matrix 1 2) ∧
    (readLine 3 afterFirstRule (bytes "\n")).map (fun st => (st.written, st.matrix 1 2))
      = some ([(0, 2)], { class_ := 0, end_ := -1, action := 0 }) ∧
    (readLine 3 afterFirstRule (bytes "1\n")).map (fun st => (st.written, st.matrix 1 2))
      = some ([(0, 2)], { class_ := 0, end_ := -1, action := 0 }) ∧
    strtokAll (bytes "1 \n") = [bytes "1", bytes "\n"] ∧
    (readLine 3 afterFirstRule (bytes "1 \n")).map (fun st => (st.written, st.matrix 1 2))
      = some ([(0, 2), (1, 2)], { class_ := 2, end_ := 1, action := 115 }) := by
  refine ⟨by decide, by decide, by decide, by decide, by decide, by decide⟩

end Tokenize
